import Mathlib

/-!
Verification of the PMC open-access image-caption dataset builder
(`process.py`).  The development shallowly embeds the second (shadowing)
definition of `build_pubmed_image_caption_dataset_streaming` together with
its helpers `_try_download_with_fallback`, `_response_size` (as an oracle),
`_members_by_ext`, `_ensure_jpeg_and_save` and the manifest reader.

Network and filesystem effects are made explicit: remote endpoints are
oracle functions from URL to an optional archive value, and the run state
records the output file lines, the image files saved, the HEAD queries and
the download attempts as explicit logs.
-/

set_option autoImplicit false

namespace PMC

/-! ### Python / pathlib string primitives, over `List Char` -/

/-- Python `str.lower` restricted to ASCII, applied characterwise. -/
def strLower (s : String) : String :=
  ⟨s.data.map Char.toLower⟩

/-- Split a character list at every occurrence of `sep`, keeping empty
parts, like Python `str.split` with a one-character separator. -/
def splitChar (sep : Char) : List Char → List (List Char)
  | [] => [[]]
  | c :: cs =>
    match splitChar sep cs with
    | [] => [[c]]
    | h :: t => if c = sep then [] :: h :: t else (c :: h) :: t

/-- Python `s.split(sep)` for a one-character separator. -/
def pySplit (sep : Char) (s : String) : List String :=
  (splitChar sep s.data).map (fun l => ⟨l⟩)

/-- Python `s.rstrip(ch)` for a single character. -/
def rstripChar (ch : Char) (s : String) : String :=
  ⟨(s.data.reverse.dropWhile (· = ch)).reverse⟩

/-- The whitespace class stripped by Python `str.strip()`. -/
def isPySpace (c : Char) : Bool :=
  c = ' ' || c = '\t' || c = '\n' || c = '\r' || c = '\x0b' || c = '\x0c'

/-- Python `str.strip()`. -/
def pyStrip (s : String) : String :=
  ⟨((s.data.dropWhile isPySpace).reverse.dropWhile isPySpace).reverse⟩

/-- Python `s.endswith(t)`. -/
def strEndsWith (s t : String) : Bool :=
  List.isSuffixOf t.data s.data

/-- Substring containment over character lists: Python `needle in hay`. -/
def containsSub (needle : List Char) : List Char → Bool
  | [] => needle.isEmpty
  | c :: cs => needle.isPrefixOf (c :: cs) || containsSub needle cs

/-- Python `needle in hay` on strings. -/
def strContainsSub (needle hay : String) : Bool :=
  containsSub needle.data hay.data

/-- One step of splitting a path into directory part and final name,
consumed by `List.foldr`: characters are attached to the name until the
first slash from the right, then everything goes to the directory part. -/
def splitNameStep (c : Char) (p : List Char × List Char) : List Char × List Char :=
  if p.1 = [] ∧ c ≠ '/' then ([], c :: p.2) else (c :: p.1, p.2)

/-- Split a path into `(directory part, final component)`; the directory
part is empty or ends with a slash, and the final component is slash free. -/
def splitDirName (l : List Char) : List Char × List Char :=
  l.foldr splitNameStep ([], [])

/-- Drop trailing slashes, as `pathlib` normalisation does before taking
the final component. -/
def stripTrailingSlashes (l : List Char) : List Char :=
  (l.reverse.dropWhile (· = '/')).reverse

/-- The final path component, `pathlib.PurePath.name`. -/
def basenameL (l : List Char) : List Char :=
  (splitDirName (stripTrailingSlashes l)).2

/-- `pathlib.Path(s).name` on strings. -/
def pathName (s : String) : String :=
  ⟨basenameL s.data⟩

/-- Length of the extension of a final component, dot included, following
the pathlib rule: the extension starts at the last dot provided that dot
is neither the first nor the last character; otherwise there is none. -/
def extSplitLen (name : List Char) : Nat :=
  if name.contains '.' then
    let k := (name.reverse.takeWhile (fun c => c != '.')).length
    if 0 < k ∧ k < name.length - 1 then k + 1 else 0
  else 0

/-- Extension of a final component, `pathlib` semantics. -/
def nameSuffix (name : List Char) : List Char :=
  name.drop (name.length - extSplitLen name)

/-- Stem of a final component, `pathlib` semantics. -/
def nameStem (name : List Char) : List Char :=
  name.take (name.length - extSplitLen name)

/-- `pathlib.Path(s).suffix`. -/
def pathSuffix (s : String) : String :=
  ⟨nameSuffix (basenameL s.data)⟩

/-- `pathlib.Path(s).stem`. -/
def pathStem (s : String) : String :=
  ⟨nameStem (basenameL s.data)⟩

/-- `pathlib.Path(s).with_suffix(suf)`: replace the extension of the final
component. -/
def withSuffix (s suf : String) : String :=
  let p := stripTrailingSlashes s.data
  let dn := splitDirName p
  ⟨dn.1 ++ nameStem dn.2 ++ suf.data⟩

/-! ### Data model -/

/-- One well-formed manifest row: exactly five tab-separated fields. -/
structure ManifestEntry where
  path : String
  title : String
  pmcid : String
  pmid : String
  code : String
deriving DecidableEq

/-- One caption record as produced by `pubmed_parser.parse_pubmed_caption`.
The pmid and pmc fields model `fig.get(key, default)`: `none` stands for an
absent key, `some v` for a present value `v` (an empty `v` is falsy and
triggers the `or` fallback in the source). -/
structure Fig where
  fig_id : String
  fig_caption : String
  graphic_ref : String
  figPmid : Option String
  figPmc : Option String
deriving DecidableEq

/-- One archive member: name, regular-file flag, and the decode outcome of
its bytes under `PIL.Image.open` (`none` when decoding raises, `some mode`
when it yields an image of that mode). -/
structure TarMember where
  name : String
  isfile : Bool
  imgMode : Option String
deriving DecidableEq

/-- Outcome of `pubmed_parser.parse_pubmed_caption` on the first nxml
member of an archive: a raised parse error, or an ordered caption list. -/
inductive ParseOutcome where
  | fail
  | ok (figs : List Fig)
deriving DecidableEq

/-- A downloaded archive: whether `tarfile.open` succeeds, its member
list, and the parse outcome of its first nxml member. -/
structure Archive where
  tarOk : Bool
  members : List TarMember
  parse : ParseOutcome
deriving DecidableEq

/-- The remote world: `download url` is the archive served at `url`
(`none` when the request raises or has a failure status), and
`headSize url` is the result of `_response_size` for `url`. -/
structure Remote where
  download : String → Option Archive
  headSize : String → Option Nat

/-- The explicit keyword arguments of
`build_pubmed_image_caption_dataset_streaming`. -/
structure Config where
  subset_size : Option Nat
  file_extension : String
  max_filesize_mb : Option Nat
  resume : Bool
  use_dual_base : Bool
deriving DecidableEq

/-- One output JSONL record. -/
structure Record where
  image : String
  caption : String
  pmid : String
  pmcid : String
  pair_id : String
deriving DecidableEq

/-- The observable state of a run: the in-memory dedup set, the lines of
the output file, and logs of the image files saved, the HEAD queries made
and the download attempts, plus the two progress counters. -/
structure RunState where
  pairs : List String
  outFile : List Record
  saves : List String
  headQueries : List String
  downloads : List String
  nWritten : Nat
  nSkipped : Nat
deriving DecidableEq

/-! ### Constants from the source -/

def PRIMARY_BASE : String := "https://pmc-oa-opendata.s3.amazonaws.com/"

def FALLBACK_BASE : String := "https://ftp.ncbi.nlm.nih.gov/pub/pmc/"

/-- The image extension tuple used both for the member index and for the
candidate list of the matcher. -/
def imgExts : List String := [".jpg", ".jpeg", ".png", ".tif", ".tiff"]

/-! ### Helpers from the source -/

/-- Insert into an association list with Python dict semantics: an
existing key keeps its position and gets the new value, a new key goes to
the end. -/
def dictInsert {α : Type} (d : List (String × α)) (k : String) (v : α) :
    List (String × α) :=
  if d.any (fun kv => kv.1 = k) then
    d.map (fun kv => if kv.1 = k then (k, v) else kv)
  else d ++ [(k, v)]

/-- `_members_by_ext`: members whose lowercased name ends with one of the
given extensions (already lowercase in every call site). -/
def members_by_ext (members : List TarMember) (exts : List String) : List TarMember :=
  members.filter (fun m => exts.any (fun e => strEndsWith (strLower m.name) e))

/-- The `img_tar_members` dict: regular-file members with an image
extension, keyed by lowercased basename, later members overwriting
earlier ones. -/
def buildImgIndex (members : List TarMember) : List (String × TarMember) :=
  members.foldl
    (fun d m =>
      if m.isfile && imgExts.any (fun e => strEndsWith (strLower m.name) e) then
        dictInsert d (strLower (pathName m.name)) m
      else d)
    []

/-- Mode conversion in `_ensure_jpeg_and_save`: anything that is neither
RGB nor L is converted to RGB, L is converted to RGB, RGB is kept. -/
def convertForJpeg (mode : String) : String :=
  if ¬ (mode = "RGB" ∨ mode = "L") then "RGB"
  else if mode = "L" then "RGB"
  else mode

/-- Path adjustment in `_ensure_jpeg_and_save`: the output path gets the
`.jpg` extension when its lowercased extension differs from `.jpg`. -/
def ensureJpgPath (out_path : String) : String :=
  if strLower (pathSuffix out_path) ≠ ".jpg" then withSuffix out_path ".jpg" else out_path

/-- `_ensure_jpeg_and_save`, as the pair (mode of the saved image, path of
the saved file); the JPEG encode itself is carried by the mode. -/
def ensure_jpeg_and_save (mode : String) (out_path : String) : String × String :=
  (convertForJpeg mode, ensureJpgPath out_path)

/-- Number of colour channels a PIL image of the given mode decodes to;
modelled from the PIL band counts. -/
def modeChannels (mode : String) : Nat :=
  if mode = "RGB" then 3
  else if mode = "RGBA" ∨ mode = "CMYK" then 4
  else if mode = "LA" then 2
  else if mode = "L" ∨ mode = "P" ∨ mode = "1" then 1
  else 0

/-! ### The image matcher -/

/-- Try each candidate basename in order against the image index; first
hit wins.  This is the `for c in candidates` loop. -/
def firstHit (candidates : List String) (idx : List (String × TarMember)) :
    Option TarMember :=
  match candidates with
  | [] => none
  | c :: cs =>
    match List.lookup c idx with
    | some m => some m
    | none => firstHit cs idx

/-- The looser search: scan the index keys in order for one containing the
stem as a substring; first hit wins.  This is the `for mname in
img_tar_members` loop. -/
def substrScan (stem : String) (idx : List (String × TarMember)) : Option TarMember :=
  match idx.find? (fun kv => strContainsSub stem kv.1) with
  | some kv => some kv.2
  | none => none

/-- The caption-to-image matcher: candidates are the lowercased basename
of the reference followed by the stem with each image extension appended,
then the substring fallback. -/
def findMember (graphic_ref : String) (idx : List (String × TarMember)) :
    Option TarMember :=
  let base := pathName graphic_ref
  let stem := pathStem base
  let candidates := strLower base :: imgExts.map (fun e => strLower (stem ++ e))
  match firstHit candidates idx with
  | some m => some m
  | none => substrScan stem idx

/-! ### The per-caption step -/

/-- The per-entry context of the caption loop: the resume flag, the
resolved pmid and pmc of the entry, and the image index. -/
structure FigCtx where
  resume : Bool
  pmid : String
  pmc : String
  idx : List (String × TarMember)

/-- Increment the skip counter. -/
def skip1 (s : RunState) : RunState :=
  { s with nSkipped := s.nSkipped + 1 }

/-- The body of the caption loop, threading the run state and the
`wrote_any` flag.  Order of checks follows the source: empty caption or
reference, member lookup, dedup test (only under resume), image decode
and save, then the record append. -/
def figStep (ctx : FigCtx) (sw : RunState × Bool) (fig : Fig) : RunState × Bool :=
  let s := sw.1
  let fig_caption := pyStrip fig.fig_caption
  if fig_caption = "" ∨ fig.graphic_ref = "" then sw
  else
    match findMember fig.graphic_ref ctx.idx with
    | none => sw
    | some member =>
      let pair_id := ctx.pmid ++ "_" ++ fig.fig_id
      if ctx.resume = true ∧ pair_id ∈ s.pairs then sw
      else
        match member.imgMode with
        | none => sw
        | some _mode =>
          let img_rel := ctx.pmc ++ "/" ++ ctx.pmc ++ "_fig-" ++ fig.fig_id ++ ".jpg"
          let saved := ensureJpgPath img_rel
          let record : Record :=
            { image := saved, caption := fig_caption, pmid := ctx.pmid,
              pmcid := ctx.pmc, pair_id := pair_id }
          ({ s with outFile := s.outFile ++ [record],
                    pairs := pair_id :: s.pairs,
                    saves := s.saves ++ [saved],
                    nWritten := s.nWritten + 1 }, true)

/-- The record a caption would produce, dedup test set aside: `none` when
the caption is skipped for an empty caption or reference, a failed member
lookup, or a decode failure. -/
def figAttempt (ctx : FigCtx) (fig : Fig) : Option Record :=
  let fig_caption := pyStrip fig.fig_caption
  if fig_caption = "" ∨ fig.graphic_ref = "" then none
  else
    match findMember fig.graphic_ref ctx.idx with
    | none => none
    | some member =>
      match member.imgMode with
      | none => none
      | some _mode =>
        some { image := ensureJpgPath (ctx.pmc ++ "/" ++ ctx.pmc ++ "_fig-" ++ fig.fig_id ++ ".jpg"),
               caption := fig_caption, pmid := ctx.pmid, pmcid := ctx.pmc,
               pair_id := ctx.pmid ++ "_" ++ fig.fig_id }

/-! ### Per-entry processing -/

/-- `parsed_figs[0].get(key, default) or default`: a present nonempty
value wins, otherwise the manifest-provided fallback. -/
def resolveField (v : Option String) (fallback : String) : String :=
  match v with
  | some s => if s = "" then fallback else s
  | none => fallback

/-- The caption-loop context of an archive whose first parsed caption is
`f0`: pmid and pmc are resolved once from `f0` with the manifest values as
fallback, and the image index is built once from the member list. -/
def archCtx (cfg : Config) (ent : ManifestEntry) (arch : Archive) (f0 : Fig) : FigCtx :=
  { resume := cfg.resume,
    pmid := resolveField f0.figPmid ent.pmid,
    pmc := resolveField f0.figPmc ent.pmcid,
    idx := buildImgIndex arch.members }

/-- Everything after a successful download: open the tar, locate nxml
members, parse captions, build the image index, resolve pmid and pmc from
the first caption, run the caption loop, and count the entry as skipped
when nothing was written. -/
def processArchive (cfg : Config) (ent : ManifestEntry) (arch : Archive)
    (s : RunState) : RunState :=
  if arch.tarOk = false then skip1 s
  else
    let nxml_members := members_by_ext arch.members [".nxml"]
    if nxml_members.isEmpty then skip1 s
    else
      match arch.parse with
      | ParseOutcome.fail => skip1 s
      | ParseOutcome.ok parsed_figs =>
        match parsed_figs with
        | [] => skip1 s
        | f0 :: _ =>
          let sw := parsed_figs.foldl (figStep (archCtx cfg ent arch f0)) (s, false)
          if sw.2 = false then skip1 sw.1 else sw.1

/-- Append the archive extension when the relative path lacks it. -/
def relWithExt (path ext : String) : String :=
  if strEndsWith path ext then path else path ++ ext

/-- `_try_download_with_fallback`: S3 first, then NCBI FTP, returning the
archive obtained (or `none` when both fail) together with the download
attempts made. -/
def try_download_with_fallback (remote : Remote) (rel_path : String)
    (file_extension : String) : Option Archive × List String :=
  let rel := relWithExt rel_path file_extension
  let s3_url := PRIMARY_BASE ++ rel
  match remote.download s3_url with
  | some a => (some a, [s3_url])
  | none =>
    let ftp_url := FALLBACK_BASE ++ rel
    match remote.download ftp_url with
    | some a => (some a, [s3_url, ftp_url])
    | none => (none, [s3_url, ftp_url])

/-- The download phase of one entry: dual-base fallback or primary only;
a failed retrieval skips the entry. -/
def downloadPhase (cfg : Config) (remote : Remote) (ent : ManifestEntry)
    (s : RunState) : RunState :=
  if cfg.use_dual_base then
    match try_download_with_fallback remote ent.path cfg.file_extension with
    | (some arch, log) =>
      processArchive cfg ent arch { s with downloads := s.downloads ++ log }
    | (none, log) => skip1 { s with downloads := s.downloads ++ log }
  else
    let url := PRIMARY_BASE ++ relWithExt ent.path cfg.file_extension
    match remote.download url with
    | some arch => processArchive cfg ent arch { s with downloads := s.downloads ++ [url] }
    | none => skip1 { s with downloads := s.downloads ++ [url] }

/-- One manifest entry: the optional pre-flight size guard against the
primary endpoint, then the download phase. -/
def processEntry (cfg : Config) (remote : Remote) (s : RunState)
    (ent : ManifestEntry) : RunState :=
  match cfg.max_filesize_mb with
  | none => downloadPhase cfg remote ent s
  | some m =>
    let url := PRIMARY_BASE ++ relWithExt ent.path cfg.file_extension
    let s1 := { s with headQueries := s.headQueries ++ [url] }
    match remote.headSize url with
    | some size_bytes =>
      if size_bytes > m * 1024 * 1024 then skip1 s1
      else downloadPhase cfg remote ent s1
    | none => downloadPhase cfg remote ent s1

/-! ### Manifest reading and run assembly -/

/-- Parse one manifest line: strip trailing newlines, split on tabs, and
require exactly five fields; anything else is dropped. -/
def readManifestLine (line : String) : Option ManifestEntry :=
  match pySplit '\t' (rstripChar '\n' line) with
  | [path, title, pmcid, pmid, code] =>
    some { path := path, title := title, pmcid := pmcid, pmid := pmid, code := code }
  | _ => none

/-- The manifest reading loop over the lines after the header: the subset
cap is tested against the raw line index before parsing (a cap of zero is
falsy and never triggers), malformed lines are dropped. -/
def readEntriesAux (subset_size : Option Nat) : Nat → List String → List ManifestEntry
  | _, [] => []
  | idx, line :: rest =>
    let capped :=
      match subset_size with
      | none => false
      | some n => decide (n ≠ 0) && decide (idx + 1 > n)
    if capped then []
    else
      match readManifestLine line with
      | some e => e :: readEntriesAux subset_size (idx + 1) rest
      | none => readEntriesAux subset_size (idx + 1) rest

/-- Entries attempted for a manifest body (the lines after the header). -/
def readEntries (subset_size : Option Nat) (lines : List String) : List ManifestEntry :=
  readEntriesAux subset_size 0 lines

/-- Rebuild the dedup set from the persisted output file: every nonempty
pair id of a parsed line. -/
def pairsFromFile : List Record → List String
  | [] => []
  | r :: rs => if r.pair_id = "" then pairsFromFile rs else r.pair_id :: pairsFromFile rs

/-- Initial run state: the dedup set is rebuilt from the existing output
file only under resume, and the file is opened for append. -/
def initState (cfg : Config) (existingFile : List Record) : RunState :=
  { pairs := if cfg.resume then pairsFromFile existingFile else [],
    outFile := existingFile,
    saves := [], headQueries := [], downloads := [],
    nWritten := 0, nSkipped := 0 }

/-- Fold the per-entry pipeline over the attempted entries. -/
def runEntries (cfg : Config) (remote : Remote) (entries : List ManifestEntry)
    (s : RunState) : RunState :=
  entries.foldl (processEntry cfg remote) s

/-- The whole streaming builder: rebuild the dedup set, read the manifest
(first line is the header), and process every attempted entry. -/
def build_pubmed_image_caption_dataset_streaming (cfg : Config) (remote : Remote)
    (fileLines : List String) (existingFile : List Record) : RunState :=
  runEntries cfg remote (readEntries cfg.subset_size (fileLines.drop 1))
    (initState cfg existingFile)

/-- Number of records a single entry appends to the output file. -/
def entryAppendCount (cfg : Config) (remote : Remote) (s : RunState)
    (ent : ManifestEntry) : Nat :=
  (processEntry cfg remote s ent).outFile.length - s.outFile.length

/-- Number of attempted entries that append at least one record, replayed
along the run. -/
def writingEntries (cfg : Config) (remote : Remote) :
    List ManifestEntry → RunState → Nat
  | [], _ => 0
  | e :: es, s =>
    (if 0 < entryAppendCount cfg remote s e then 1 else 0) +
      writingEntries cfg remote es (processEntry cfg remote s e)

/-- Whether the pre-flight size guard skips the entry: a ceiling is
configured, the HEAD query reports a size, and the size exceeds the
ceiling. -/
def sizeGuardSkips (cfg : Config) (remote : Remote) (ent : ManifestEntry) : Bool :=
  match cfg.max_filesize_mb with
  | none => false
  | some m =>
    match remote.headSize (PRIMARY_BASE ++ relWithExt ent.path cfg.file_extension) with
    | some size_bytes => decide (size_bytes > m * 1024 * 1024)
    | none => false

/-- The HEAD queries one entry makes: one against the primary endpoint
when a ceiling is configured, none otherwise. -/
def guardLog (cfg : Config) (ent : ManifestEntry) : List String :=
  match cfg.max_filesize_mb with
  | none => []
  | some _ => [PRIMARY_BASE ++ relWithExt ent.path cfg.file_extension]

/-- The remote world with the response at one URL replaced by a
successful archive; used to compare a fallback-served run with the run
the primary endpoint would have given. -/
def patchPrimary (remote : Remote) (url : String) (a : Archive) : Remote :=
  { remote with download := fun u => if u = url then some a else remote.download u }

/-- How a processing stage may extend the run state under resume: the
dedup set only grows, the output file only gains records whose pair ids
are nonempty, new at the moment of writing, recorded in the final dedup
set, and pairwise distinct. -/
def AppendsOK (s t : RunState) : Prop :=
  s.pairs ⊆ t.pairs ∧
  ∃ L, t.outFile = s.outFile ++ L ∧
    L.Pairwise (fun a b => a.pair_id ≠ b.pair_id) ∧
    ∀ r ∈ L, r.pair_id ∉ s.pairs ∧ r.pair_id ∈ t.pairs ∧ r.pair_id ≠ ""

/-! ### The matcher steps, as the specification words them -/

/-- Step 1 of the matcher as specified: exact match of the lowercased
basename of the reference against the basename index. -/
def matchExact (graphic_ref : String) (idx : List (String × TarMember)) :
    Option TarMember :=
  List.lookup (strLower (pathName graphic_ref)) idx

/-- Step 2 of the matcher as specified: the stem of the reference with
each extension of the fixed set appended, tried in order. -/
def matchExt (graphic_ref : String) (idx : List (String × TarMember)) :
    Option TarMember :=
  firstHit (imgExts.map (fun e => strLower (pathStem (pathName graphic_ref) ++ e))) idx

/-- Step 3 of the matcher as specified: substring scan of the indexed
basenames for one containing the stem. -/
def matchSubstr (graphic_ref : String) (idx : List (String × TarMember)) :
    Option TarMember :=
  substrScan (pathStem (pathName graphic_ref)) idx

/-- The three steps chained, each reached only when the previous one
found nothing. -/
def matchStep123 (graphic_ref : String) (idx : List (String × TarMember)) :
    Option TarMember :=
  match matchExact graphic_ref idx with
  | some m => some m
  | none =>
    match matchExt graphic_ref idx with
    | some m => some m
    | none => matchSubstr graphic_ref idx

/-! ### Concrete test fixtures -/

/-- The two archive members of the matching-precedence example. -/
def memberFig3 : TarMember := { name := "fig3.png", isfile := true, imgMode := some "RGB" }

def memberOther : TarMember := { name := "other.jpg", isfile := true, imgMode := some "RGB" }

/-- A caption referring to image `f1`. -/
def figOne : Fig :=
  { fig_id := "1", fig_caption := "A cell.", graphic_ref := "f1",
    figPmid := some "1001", figPmc := some "PMC1" }

/-- A second caption of the same archive whose own ids differ from the
first caption. -/
def figTwoOtherIds : Fig :=
  { fig_id := "2", fig_caption := "B cell.", graphic_ref := "f2",
    figPmid := some "9999", figPmc := some "PMC9" }

/-- A caption whose reference matches no member. -/
def figNope : Fig :=
  { fig_id := "9", fig_caption := "Cap.", graphic_ref := "nope",
    figPmid := none, figPmc := none }

/-- An archive with one nxml member, one image, and one caption. -/
def archOne : Archive :=
  { tarOk := true,
    members := [ { name := "PMC1/a.nxml", isfile := true, imgMode := none },
                 { name := "PMC1/f1.jpg", isfile := true, imgMode := some "RGB" } ],
    parse := ParseOutcome.ok [figOne] }

/-- An archive whose caption list repeats the same caption twice. -/
def archDup : Archive := { archOne with parse := ParseOutcome.ok [figOne, figOne] }

/-- An archive with two captions, the second with different own ids. -/
def archTwo : Archive :=
  { tarOk := true,
    members := [ { name := "PMC1/a.nxml", isfile := true, imgMode := none },
                 { name := "PMC1/f1.jpg", isfile := true, imgMode := some "RGB" },
                 { name := "PMC1/f2.jpg", isfile := true, imgMode := some "RGB" } ],
    parse := ParseOutcome.ok [figOne, figTwoOtherIds] }

/-- Archive of the first entry of the overwrite scenario. -/
def archP1 : Archive :=
  { tarOk := true,
    members := [ { name := "PMC1/a.nxml", isfile := true, imgMode := none },
                 { name := "PMC1/f1.jpg", isfile := true, imgMode := some "RGB" } ],
    parse := ParseOutcome.ok
      [ { fig_id := "1", fig_caption := "A.", graphic_ref := "f1",
          figPmid := some "1", figPmc := some "PMC1" } ] }

/-- Archive of the second entry: same pmc and figure id, different pmid. -/
def archP2 : Archive :=
  { archP1 with
    parse := ParseOutcome.ok
      [ { fig_id := "1", fig_caption := "B.", graphic_ref := "f1",
          figPmid := some "2", figPmc := some "PMC1" } ] }

def urlOne : String := "https://pmc-oa-opendata.s3.amazonaws.com/00/00/PMC1.tar.gz"

def urlOneFtp : String := "https://ftp.ncbi.nlm.nih.gov/pub/pmc/00/00/PMC1.tar.gz"

def urlTwo : String := "https://pmc-oa-opendata.s3.amazonaws.com/00/00/PMC2.tar.gz"

/-- Remote serving `archOne` on the primary endpoint. -/
def remoteOne : Remote :=
  { download := fun u => if u = urlOne then some archOne else none,
    headSize := fun _ => none }

/-- Remote serving `archOne` on both endpoints. -/
def remoteBoth : Remote :=
  { download := fun u =>
      if u = urlOne then some archOne
      else if u = urlOneFtp then some archOne else none,
    headSize := fun _ => none }

def remoteDup : Remote :=
  { download := fun u => if u = urlOne then some archDup else none,
    headSize := fun _ => none }

def remoteTwoFigs : Remote :=
  { download := fun u => if u = urlOne then some archTwo else none,
    headSize := fun _ => none }

def remoteTwoEntries : Remote :=
  { download := fun u =>
      if u = urlOne then some archP1
      else if u = urlTwo then some archP2 else none,
    headSize := fun _ => none }

/-- Remote where only the fallback endpoint serves the archive. -/
def remoteFtpOnly : Remote :=
  { download := fun u => if u = urlOneFtp then some archOne else none,
    headSize := fun _ => none }

/-- Remote where both endpoints fail. -/
def remoteDead : Remote :=
  { download := fun _ => none, headSize := fun _ => none }

/-- Remote answering HEAD queries with a two-megabyte size. -/
def remoteBig : Remote :=
  { download := fun u => if u = urlOne then some archOne else none,
    headSize := fun _ => some (2 * 1024 * 1024) }

/-- Remote answering HEAD queries with a tiny size. -/
def remoteSmall : Remote :=
  { download := fun u => if u = urlOne then some archOne else none,
    headSize := fun _ => some 100 }

def cfgResume : Config :=
  { subset_size := none, file_extension := ".tar.gz", max_filesize_mb := none,
    resume := true, use_dual_base := true }

def cfgNoResume : Config := { cfgResume with resume := false }

def cfgGuard : Config := { cfgResume with max_filesize_mb := some 1 }

def rowOne : String := "00/00/PMC1.tar.gz\ttitleX\tPMC1\t1001\tCC0"

def rowTwo : String := "00/00/PMC2.tar.gz\ttitleY\tPMC1\t1002\tCC0"

def linesOne : List String := ["header", rowOne]

def linesTwo : List String := ["header", rowOne, rowTwo]

/-- A manifest body whose first raw line is malformed. -/
def linesCap : List String := ["badrow", rowOne, rowTwo]

/-- The manifest entry of `rowOne`. -/
def entOne : ManifestEntry :=
  { path := "00/00/PMC1.tar.gz", title := "titleX", pmcid := "PMC1",
    pmid := "1001", code := "CC0" }

/-- The empty starting run state. -/
def state0 : RunState :=
  { pairs := [], outFile := [], saves := [], headQueries := [], downloads := [],
    nWritten := 0, nSkipped := 0 }

/-- A starting state with the pair id of `figOne` already present. -/
def statePaired : RunState := { state0 with pairs := ["1001_1"] }

/-- The caption-loop context of `archOne` resolved for `entOne`. -/
def ctxOne : FigCtx :=
  { resume := true, pmid := "1001", pmc := "PMC1", idx := buildImgIndex archOne.members }

/-- The record the pipeline writes for `figOne` of `archOne`. -/
def recOne : Record :=
  { image := "PMC1/PMC1_fig-1.jpg", caption := "A cell.", pmid := "1001",
    pmcid := "PMC1", pair_id := "1001_1" }

/-- The record the pipeline writes for `figTwoOtherIds` of `archTwo`. -/
def recTwo : Record :=
  { image := "PMC1/PMC1_fig-2.jpg", caption := "B cell.", pmid := "1001",
    pmcid := "PMC1", pair_id := "1001_2" }

/-! ## Symbolic lemmas about the caption loop and the run

The string primitives are made locally irreducible here: every lemma in
this section treats them as opaque, which keeps definitional unfolding
away from their recursions. -/

section SymbolicProofs

attribute [local irreducible] pyStrip strLower pathName pathSuffix pathStem
  withSuffix ensureJpgPath strEndsWith strContainsSub findMember

/-- Characterisation of the caption-loop body: either the caption is
skipped before the dedup test (no attempt), or the attempted record is
suppressed by the dedup test under resume, or it is appended. -/
theorem figStep_char (ctx : FigCtx) (fig : Fig) (sw : RunState × Bool) :
    figStep ctx sw fig =
      match figAttempt ctx fig with
      | none => sw
      | some r =>
        if ctx.resume = true ∧ r.pair_id ∈ sw.1.pairs then sw
        else ({ sw.1 with outFile := sw.1.outFile ++ [r],
                          pairs := r.pair_id :: sw.1.pairs,
                          saves := sw.1.saves ++ [r.image],
                          nWritten := sw.1.nWritten + 1 }, true) := by
  unfold figStep figAttempt
  by_cases h1 : pyStrip fig.fig_caption = "" ∨ fig.graphic_ref = ""
  · rw [if_pos h1, if_pos h1]
  · rw [if_neg h1, if_neg h1]
    cases hm : findMember fig.graphic_ref ctx.idx with
    | none => rfl
    | some member =>
      dsimp only
      cases hmode : member.imgMode with
      | none =>
        dsimp only
        exact ite_self sw
      | some md =>
        dsimp only

/-- The fields of an attempted record. -/
theorem figAttempt_fields (ctx : FigCtx) (fig : Fig) (r : Record)
    (h : figAttempt ctx fig = some r) :
    r.pair_id = ctx.pmid ++ "_" ++ fig.fig_id ∧ r.pmid = ctx.pmid ∧
    r.pmcid = ctx.pmc ∧
    r.image = ensureJpgPath (ctx.pmc ++ "/" ++ ctx.pmc ++ "_fig-" ++ fig.fig_id ++ ".jpg") ∧
    r.caption = pyStrip fig.fig_caption := by
  simp only [figAttempt] at h
  by_cases h1 : pyStrip fig.fig_caption = "" ∨ fig.graphic_ref = ""
  · rw [if_pos h1] at h
    exact Option.noConfusion h
  · rw [if_neg h1] at h
    rcases hm : findMember fig.graphic_ref ctx.idx with _ | member
    · simp only [hm] at h
      exact Option.noConfusion h
    · simp only [hm] at h
      rcases hmode : member.imgMode with _ | md
      · simp only [hmode] at h
        exact Option.noConfusion h
      · simp only [hmode] at h
        cases h
        exact ⟨rfl, rfl, rfl, rfl, rfl⟩

/-- Dissection of one caption step: the state is unchanged, or exactly
one record is appended, with the dedup set gaining its pair id. -/
theorem figStep_split (ctx : FigCtx) (fig : Fig) (sw : RunState × Bool) :
    figStep ctx sw fig = sw ∨
    ∃ r, figAttempt ctx fig = some r ∧
      ¬ (ctx.resume = true ∧ r.pair_id ∈ sw.1.pairs) ∧
      figStep ctx sw fig =
        ({ sw.1 with outFile := sw.1.outFile ++ [r],
                     pairs := r.pair_id :: sw.1.pairs,
                     saves := sw.1.saves ++ [r.image],
                     nWritten := sw.1.nWritten + 1 }, true) := by
  rw [figStep_char]
  cases hA : figAttempt ctx fig with
  | none => exact Or.inl rfl
  | some r =>
    dsimp only
    by_cases h2 : ctx.resume = true ∧ r.pair_id ∈ sw.1.pairs
    · rw [if_pos h2]
      exact Or.inl rfl
    · rw [if_neg h2]
      exact Or.inr ⟨r, rfl, h2, rfl⟩

/-- Under resume, a caption whose pair id is already in the dedup set
leaves the state untouched: no record, no save, no extraction. -/
theorem figStep_dedup (ctx : FigCtx) (fig : Fig) (sw : RunState × Bool)
    (hres : ctx.resume = true)
    (hmem : ctx.pmid ++ "_" ++ fig.fig_id ∈ sw.1.pairs) :
    figStep ctx sw fig = sw := by
  rw [figStep_char]
  cases hA : figAttempt ctx fig with
  | none => rfl
  | some r =>
    obtain ⟨hp, -⟩ := figAttempt_fields ctx fig r hA
    dsimp only
    rw [if_pos ⟨hres, by rw [hp]; exact hmem⟩]

/-- A caption with no attempted record leaves the state untouched. -/
theorem figStep_of_attempt_none (ctx : FigCtx) (fig : Fig) (sw : RunState × Bool)
    (h : figAttempt ctx fig = none) : figStep ctx sw fig = sw := by
  rw [figStep_char, h]

/-- A caption whose reference resolves to no member produces no attempt. -/
theorem figAttempt_none_of_noMatch (ctx : FigCtx) (fig : Fig)
    (h : findMember fig.graphic_ref ctx.idx = none) :
    figAttempt ctx fig = none := by
  unfold figAttempt
  by_cases h1 : pyStrip fig.fig_caption = "" ∨ fig.graphic_ref = ""
  · rw [if_pos h1]
  · rw [if_neg h1, h]

/-- A pair id built by the caption loop always contains an underscore and
is therefore never empty. -/
theorem pairId_ne_empty (a b : String) : a ++ "_" ++ b ≠ "" := by
  intro h
  have hd : (a ++ "_" ++ b).data = a.data ++ '_' :: b.data := by
    rw [String.data_append, String.data_append]
    simp
  rw [h] at hd
  have : ('_' : Char) ∈ ([] : List Char) := by
    rw [show ([] : List Char) = "".data from rfl, hd]
    simp
  simp at this

/-- Rebuilding the dedup set distributes over file concatenation. -/
theorem pairsFromFile_append (A B : List Record) :
    pairsFromFile (A ++ B) = pairsFromFile A ++ pairsFromFile B := by
  induction A with
  | nil => rfl
  | cons r A ih =>
    by_cases h : r.pair_id = ""
    · simp [pairsFromFile, h, ih]
    · simp [pairsFromFile, h, ih]

/-- A record with a nonempty pair id contributes it to the rebuilt set. -/
theorem mem_pairsFromFile_of_mem (F : List Record) (r : Record) (hr : r ∈ F)
    (hne : r.pair_id ≠ "") : r.pair_id ∈ pairsFromFile F := by
  induction F with
  | nil => cases hr
  | cons x F ih =>
    rcases List.mem_cons.mp hr with h | h
    · subst h
      simp [pairsFromFile, hne]
    · by_cases hx : x.pair_id = ""
      · simpa [pairsFromFile, hx] using ih h
      · simp [pairsFromFile, hx]
        exact Or.inr (ih h)

/-- Master dissection of the caption loop over a caption list: the output
file gains a list of records, the dedup set grows, the query and download
logs and the skip counter are untouched, the written counter counts the
new records, the flag reports whether anything was written, and every new
record is the attempt of one of the captions. -/
theorem foldFigs_split (ctx : FigCtx) (figs : List Fig) (sw : RunState × Bool) :
    ∃ L : List Record,
      (figs.foldl (figStep ctx) sw).1.outFile = sw.1.outFile ++ L ∧
      sw.1.pairs ⊆ (figs.foldl (figStep ctx) sw).1.pairs ∧
      (figs.foldl (figStep ctx) sw).1.headQueries = sw.1.headQueries ∧
      (figs.foldl (figStep ctx) sw).1.downloads = sw.1.downloads ∧
      (figs.foldl (figStep ctx) sw).1.nSkipped = sw.1.nSkipped ∧
      (figs.foldl (figStep ctx) sw).1.nWritten = sw.1.nWritten + L.length ∧
      (figs.foldl (figStep ctx) sw).2 = (sw.2 || !L.isEmpty) ∧
      ∀ r ∈ L, ∃ f ∈ figs, figAttempt ctx f = some r := by
  induction figs generalizing sw with
  | nil =>
    exact ⟨[], by simp, fun a ha => ha, rfl, rfl, rfl, rfl, by simp, by simp⟩
  | cons f t ih =>
    rw [List.foldl_cons]
    rcases figStep_split ctx f sw with heq | ⟨r, hA, hnot, heq⟩
    · rw [heq]
      obtain ⟨L, h1, h2, h3, h4, h5, h6, h7, h8⟩ := ih sw
      refine ⟨L, h1, h2, h3, h4, h5, h6, h7, fun x hx => ?_⟩
      obtain ⟨g, hg, hAg⟩ := h8 x hx
      exact ⟨g, List.mem_cons_of_mem f hg, hAg⟩
    · rw [heq]
      obtain ⟨L, h1, h2, h3, h4, h5, h6, h7, h8⟩ :=
        ih ({ sw.1 with outFile := sw.1.outFile ++ [r],
                        pairs := r.pair_id :: sw.1.pairs,
                        saves := sw.1.saves ++ [r.image],
                        nWritten := sw.1.nWritten + 1 }, true)
      refine ⟨r :: L, ?_, ?_, h3, h4, h5, ?_, ?_, ?_⟩
      · rw [h1]
        simp
      · intro a ha
        exact h2 (List.mem_cons_of_mem _ ha)
      · have h6' : _ = sw.1.nWritten + 1 + L.length := h6
        rw [h6']
        simp [Nat.add_assoc, Nat.add_comm 1 L.length]
      · have h7' : _ = (true || !L.isEmpty) := h7
        rw [h7']
        simp
      · intro x hx
        rcases List.mem_cons.mp hx with h | h
        · subst h
          exact ⟨f, List.mem_cons_self f t, hA⟩
        · obtain ⟨g, hg, hAg⟩ := h8 x h
          exact ⟨g, List.mem_cons_of_mem f hg, hAg⟩

/-- The caption loop preserves the invariant that every pair id in the
dedup set is recorded in the output file or was there initially. -/
theorem foldFigs_inv (ctx : FigCtx) (figs : List Fig) (sw : RunState × Bool)
    (h : sw.1.pairs ⊆ pairsFromFile sw.1.outFile) :
    (figs.foldl (figStep ctx) sw).1.pairs ⊆
      pairsFromFile (figs.foldl (figStep ctx) sw).1.outFile := by
  induction figs generalizing sw with
  | nil => exact h
  | cons f t ih =>
    rw [List.foldl_cons]
    rcases figStep_split ctx f sw with heq | ⟨r, hA, hnot, heq⟩
    · rw [heq]
      exact ih sw h
    · rw [heq]
      refine ih _ ?_
      obtain ⟨hp, -⟩ := figAttempt_fields ctx f r hA
      intro a ha
      rcases List.mem_cons.mp ha with h' | h'
      · subst h'
        rw [pairsFromFile_append]
        refine List.mem_append_right _ ?_
        have hne : r.pair_id ≠ "" := by
          rw [hp]
          exact pairId_ne_empty ctx.pmid f.fig_id
        simp [pairsFromFile, hne]
      · rw [pairsFromFile_append]
        exact List.mem_append_left _ (h h')

/-- `AppendsOK` is reflexive. -/
theorem AppendsOK_refl (s : RunState) : AppendsOK s s :=
  ⟨fun a ha => ha, [], by simp, by simp, by simp⟩

/-- `AppendsOK` composes. -/
theorem AppendsOK_trans {s t u : RunState} (h1 : AppendsOK s t)
    (h2 : AppendsOK t u) : AppendsOK s u := by
  obtain ⟨hsub1, L1, hf1, hpw1, hm1⟩ := h1
  obtain ⟨hsub2, L2, hf2, hpw2, hm2⟩ := h2
  refine ⟨fun a ha => hsub2 (hsub1 ha), L1 ++ L2, ?_, ?_, ?_⟩
  · rw [hf2, hf1, List.append_assoc]
  · rw [List.pairwise_append]
    refine ⟨hpw1, hpw2, fun a ha b hb => ?_⟩
    intro hab
    obtain ⟨-, hmem1, -⟩ := hm1 a ha
    obtain ⟨hnot2, -, -⟩ := hm2 b hb
    rw [hab] at hmem1
    exact hnot2 hmem1
  · intro r hr
    rcases List.mem_append.mp hr with h | h
    · obtain ⟨hna, hma, hne⟩ := hm1 r h
      exact ⟨hna, hsub2 hma, hne⟩
    · obtain ⟨hna, hma, hne⟩ := hm2 r h
      exact ⟨fun hcon => hna (hsub1 hcon), hma, hne⟩

/-- Under resume, one caption step satisfies `AppendsOK`. -/
theorem AppendsOK_figStep (ctx : FigCtx) (fig : Fig) (sw : RunState × Bool)
    (hres : ctx.resume = true) :
    AppendsOK sw.1 (figStep ctx sw fig).1 := by
  rcases figStep_split ctx fig sw with heq | ⟨r, hA, hnot, heq⟩
  · rw [heq]
    exact AppendsOK_refl sw.1
  · rw [heq]
    obtain ⟨hp, -⟩ := figAttempt_fields ctx fig r hA
    have hmem : r.pair_id ∉ sw.1.pairs := fun hc => hnot ⟨hres, hc⟩
    refine ⟨fun a ha => List.mem_cons_of_mem _ ha, [r], rfl, by simp, ?_⟩
    intro x hx
    rcases List.mem_cons.mp hx with h | h
    · subst h
      refine ⟨hmem, List.mem_cons_self _ _, ?_⟩
      rw [hp]
      exact pairId_ne_empty ctx.pmid fig.fig_id
    · cases h

/-- Under resume, the whole caption loop satisfies `AppendsOK`. -/
theorem AppendsOK_foldFigs (ctx : FigCtx) (figs : List Fig) (sw : RunState × Bool)
    (hres : ctx.resume = true) :
    AppendsOK sw.1 (figs.foldl (figStep ctx) sw).1 := by
  induction figs generalizing sw with
  | nil => exact AppendsOK_refl sw.1
  | cons f t ih =>
    rw [List.foldl_cons]
    exact AppendsOK_trans (AppendsOK_figStep ctx f sw hres) (ih _)

/-- Saturation of one caption step: when the dedup set of a second state
already covers everything the step would add from the first state, the
step from the second state is the identity. -/
theorem figStep_sat (ctx : FigCtx) (fig : Fig) (sw sw' : RunState × Bool)
    (hres : ctx.resume = true)
    (h : (figStep ctx sw fig).1.pairs ⊆ sw'.1.pairs) :
    figStep ctx sw' fig = sw' := by
  rw [figStep_char]
  cases hA : figAttempt ctx fig with
  | none => rfl
  | some r =>
    dsimp only
    have hmem : r.pair_id ∈ sw'.1.pairs := by
      by_cases hd : r.pair_id ∈ sw.1.pairs
      · have heq : figStep ctx sw fig = sw := by
          rw [figStep_char, hA]
          dsimp only
          rw [if_pos ⟨hres, hd⟩]
        rw [heq] at h
        exact h hd
      · have heq : figStep ctx sw fig =
            ({ sw.1 with outFile := sw.1.outFile ++ [r],
                         pairs := r.pair_id :: sw.1.pairs,
                         saves := sw.1.saves ++ [r.image],
                         nWritten := sw.1.nWritten + 1 }, true) := by
          rw [figStep_char, hA]
          dsimp only
          rw [if_neg (fun hc => hd hc.2)]
        rw [heq] at h
        exact h (List.mem_cons_self _ _)
    rw [if_pos ⟨hres, hmem⟩]

/-- Saturation of the caption loop: when a second dedup set covers the
final set of a first run of the loop, the loop from the second state is
the identity. -/
theorem foldFigs_sat (ctx : FigCtx) (figs : List Fig) (sw sw' : RunState × Bool)
    (hres : ctx.resume = true)
    (h : (figs.foldl (figStep ctx) sw).1.pairs ⊆ sw'.1.pairs) :
    figs.foldl (figStep ctx) sw' = sw' := by
  induction figs generalizing sw sw' with
  | nil => rfl
  | cons f t ih =>
    rw [List.foldl_cons] at h ⊢
    obtain ⟨L, -, hmono, -⟩ := foldFigs_split ctx t (figStep ctx sw f)
    have hstep := figStep_sat ctx f sw sw' hres (fun a ha => h (hmono ha))
    rw [hstep]
    exact ih (figStep ctx sw f) sw' h

/-- Master dissection of per-archive processing: the output file gains a
record list, the dedup set grows, the query and download logs are kept,
the written counter counts the new records, the skip counter counts the
entry exactly when nothing was written, and every new record is the
attempt of a parsed caption under the context resolved from the first
caption. -/
theorem processArchive_split (cfg : Config) (ent : ManifestEntry) (arch : Archive)
    (s : RunState) :
    ∃ L : List Record,
      (processArchive cfg ent arch s).outFile = s.outFile ++ L ∧
      s.pairs ⊆ (processArchive cfg ent arch s).pairs ∧
      (processArchive cfg ent arch s).headQueries = s.headQueries ∧
      (processArchive cfg ent arch s).downloads = s.downloads ∧
      (processArchive cfg ent arch s).nWritten = s.nWritten + L.length ∧
      (processArchive cfg ent arch s).nSkipped =
        s.nSkipped + (if L.isEmpty then 1 else 0) ∧
      ∀ r ∈ L, ∃ f0 rest, arch.parse = ParseOutcome.ok (f0 :: rest) ∧
        ∃ f ∈ f0 :: rest, figAttempt (archCtx cfg ent arch f0) f = some r := by
  unfold processArchive
  by_cases ht : arch.tarOk = false
  · rw [if_pos ht]
    exact ⟨[], by simp [skip1], fun a ha => ha, rfl, rfl, by simp [skip1],
      by simp [skip1], by simp⟩
  · rw [if_neg ht]
    by_cases hn : (members_by_ext arch.members [".nxml"]).isEmpty
    · rw [if_pos hn]
      exact ⟨[], by simp [skip1], fun a ha => ha, rfl, rfl, by simp [skip1],
        by simp [skip1], by simp⟩
    · rw [if_neg hn]
      cases hp : arch.parse with
      | fail =>
        exact ⟨[], by simp [skip1], fun a ha => ha, rfl, rfl, by simp [skip1],
          by simp [skip1], by simp⟩
      | ok figs =>
        cases figs with
        | nil =>
          exact ⟨[], by simp [skip1], fun a ha => ha, rfl, rfl, by simp [skip1],
            by simp [skip1], by simp⟩
        | cons f0 rest =>
          dsimp only
          obtain ⟨L, h1, h2, h3, h4, h5, h6, h7, h8⟩ :=
            foldFigs_split (archCtx cfg ent arch f0) (f0 :: rest) (s, false)
          by_cases hw : ((f0 :: rest).foldl (figStep (archCtx cfg ent arch f0)) (s, false)).2 = false
          · rw [if_pos hw]
            rw [hw] at h7
            have hL : L.isEmpty = true := by
              have := h7.symm
              simpa using this
            have hLnil : L = [] := by
              cases L with
              | nil => rfl
              | cons a l => simp at hL
            subst hLnil
            refine ⟨[], by simpa [skip1] using h1, h2, h3, h4, by simpa [skip1] using h6,
              by simpa [skip1] using h5, by simp⟩
          · rw [if_neg hw]
            have hL : L.isEmpty = false := by
              rcases hL2 : L.isEmpty with _ | _
              · rfl
              · rw [hL2] at h7
                simp at h7
                exact absurd h7 hw
            refine ⟨L, h1, h2, h3, h4, h6, by simpa [hL] using h5, ?_⟩
            intro r hr
            obtain ⟨f, hf, hAf⟩ := h8 r hr
            exact ⟨f0, rest, rfl, f, hf, hAf⟩

/-- Per-archive processing has exactly two shapes, uniformly in the
incoming state: an entry-level skip (corrupt tar, no nxml, parse failure,
or empty caption list), or the caption loop over a nonempty caption list
followed by the wrote-any accounting. -/
theorem processArchive_cases (cfg : Config) (ent : ManifestEntry) (arch : Archive) :
    (∀ x, processArchive cfg ent arch x = skip1 x) ∨
    ∃ f0 rest, arch.parse = ParseOutcome.ok (f0 :: rest) ∧
      ∀ x, processArchive cfg ent arch x =
        (if ((f0 :: rest).foldl (figStep (archCtx cfg ent arch f0)) (x, false)).2 = false
         then skip1 ((f0 :: rest).foldl (figStep (archCtx cfg ent arch f0)) (x, false)).1
         else ((f0 :: rest).foldl (figStep (archCtx cfg ent arch f0)) (x, false)).1) := by
  by_cases ht : arch.tarOk = false
  · exact Or.inl (fun x => by unfold processArchive; rw [if_pos ht])
  · by_cases hn : (members_by_ext arch.members [".nxml"]).isEmpty
    · exact Or.inl (fun x => by unfold processArchive; rw [if_neg ht, if_pos hn])
    · cases hp : arch.parse with
      | fail =>
        exact Or.inl (fun x => by unfold processArchive; rw [if_neg ht, if_neg hn, hp])
      | ok figs =>
        cases figs with
        | nil =>
          exact Or.inl (fun x => by unfold processArchive; rw [if_neg ht, if_neg hn, hp])
        | cons f0 rest =>
          refine Or.inr ⟨f0, rest, rfl, fun x => ?_⟩
          unfold processArchive
          rw [if_neg ht, if_neg hn, hp]

/-- Per-archive processing touches neither the query log nor the download
log. -/
theorem processArchive_keeps (cfg : Config) (ent : ManifestEntry) (arch : Archive)
    (s : RunState) :
    (processArchive cfg ent arch s).headQueries = s.headQueries ∧
    (processArchive cfg ent arch s).downloads = s.downloads := by
  obtain ⟨L, -, -, h3, h4, -, -, -⟩ := processArchive_split cfg ent arch s
  exact ⟨h3, h4⟩

/-- Per-archive processing preserves the dedup-set-in-file invariant. -/
theorem processArchive_inv (cfg : Config) (ent : ManifestEntry) (arch : Archive)
    (s : RunState) (h : s.pairs ⊆ pairsFromFile s.outFile) :
    (processArchive cfg ent arch s).pairs ⊆
      pairsFromFile (processArchive cfg ent arch s).outFile := by
  rcases processArchive_cases cfg ent arch with hu | ⟨f0, rest, hp, hu⟩
  · rw [hu s]
    exact h
  · rw [hu s]
    by_cases hw : ((f0 :: rest).foldl (figStep (archCtx cfg ent arch f0)) (s, false)).2 = false
    · rw [if_pos hw]
      exact foldFigs_inv _ _ (s, false) h
    · rw [if_neg hw]
      exact foldFigs_inv _ _ (s, false) h

/-- Under resume, per-archive processing satisfies `AppendsOK`. -/
theorem processArchive_AOK (cfg : Config) (ent : ManifestEntry) (arch : Archive)
    (s : RunState) (hres : cfg.resume = true) :
    AppendsOK s (processArchive cfg ent arch s) := by
  rcases processArchive_cases cfg ent arch with hu | ⟨f0, rest, hp, hu⟩
  · rw [hu s]
    exact AppendsOK_refl s
  · rw [hu s]
    have hA := AppendsOK_foldFigs (archCtx cfg ent arch f0) (f0 :: rest) (s, false) hres
    by_cases hw : ((f0 :: rest).foldl (figStep (archCtx cfg ent arch f0)) (s, false)).2 = false
    · rw [if_pos hw]
      exact hA
    · rw [if_neg hw]
      exact hA

/-- Saturation of per-archive processing: a state whose dedup set covers
everything a first pass would add is left with its output file, dedup set
and written counter untouched. -/
theorem processArchive_sat (cfg : Config) (ent : ManifestEntry) (arch : Archive)
    (s s' : RunState) (hres : cfg.resume = true)
    (h : (processArchive cfg ent arch s).pairs ⊆ s'.pairs) :
    (processArchive cfg ent arch s').outFile = s'.outFile ∧
    (processArchive cfg ent arch s').pairs = s'.pairs ∧
    (processArchive cfg ent arch s').nWritten = s'.nWritten := by
  rcases processArchive_cases cfg ent arch with hu | ⟨f0, rest, hp, hu⟩
  · rw [hu s']
    exact ⟨rfl, rfl, rfl⟩
  · have hpairs : ((f0 :: rest).foldl (figStep (archCtx cfg ent arch f0)) (s, false)).1.pairs ⊆ s'.pairs := by
      rw [hu s] at h
      by_cases hw : ((f0 :: rest).foldl (figStep (archCtx cfg ent arch f0)) (s, false)).2 = false
      · rw [if_pos hw] at h
        exact h
      · rw [if_neg hw] at h
        exact h
    have hsat := foldFigs_sat (archCtx cfg ent arch f0) (f0 :: rest) (s, false) (s', false)
      hres hpairs
    rw [hu s', hsat]
    exact ⟨rfl, rfl, rfl⟩

/-- One caption step commutes with overwriting the download log. -/
theorem figStep_downloads (ctx : FigCtx) (fig : Fig) (s : RunState) (b : Bool)
    (X : List String) :
    figStep ctx ({ s with downloads := X }, b) fig =
      ({ (figStep ctx (s, b) fig).1 with downloads := X },
        (figStep ctx (s, b) fig).2) := by
  rw [figStep_char, figStep_char]
  cases hA : figAttempt ctx fig with
  | none => rfl
  | some r =>
    dsimp only
    by_cases h2 : ctx.resume = true ∧ r.pair_id ∈ s.pairs
    · rw [if_pos h2, if_pos h2]
    · rw [if_neg h2, if_neg h2]

/-- The caption loop commutes with overwriting the download log. -/
theorem foldFigs_downloads (ctx : FigCtx) (figs : List Fig) (s : RunState)
    (b : Bool) (X : List String) :
    figs.foldl (figStep ctx) ({ s with downloads := X }, b) =
      ({ (figs.foldl (figStep ctx) (s, b)).1 with downloads := X },
        (figs.foldl (figStep ctx) (s, b)).2) := by
  induction figs generalizing s b with
  | nil => rfl
  | cons f t ih =>
    rw [List.foldl_cons, List.foldl_cons, figStep_downloads]
    exact ih (figStep ctx (s, b) f).1 (figStep ctx (s, b) f).2

/-- Per-archive processing commutes with overwriting the download log. -/
theorem processArchive_downloads (cfg : Config) (ent : ManifestEntry)
    (arch : Archive) (s : RunState) (X : List String) :
    processArchive cfg ent arch { s with downloads := X } =
      { processArchive cfg ent arch s with downloads := X } := by
  rcases processArchive_cases cfg ent arch with hu | ⟨f0, rest, hp, hu⟩
  · rw [hu _, hu s]
    rfl
  · rw [hu _, hu s, foldFigs_downloads]
    by_cases hw : ((f0 :: rest).foldl (figStep (archCtx cfg ent arch f0)) (s, false)).2 = false
    · rw [if_pos hw, if_pos hw]
      rfl
    · rw [if_neg hw, if_neg hw]

/-- Two states with the same dedup set and output file are related by
`AppendsOK`. -/
theorem AppendsOK_of_eq (s t : RunState) (hp : t.pairs = s.pairs)
    (ho : t.outFile = s.outFile) : AppendsOK s t := by
  refine ⟨?_, [], by rw [ho, List.append_nil], by simp, by simp⟩
  rw [hp]
  exact fun a ha => ha

/-- The download phase has exactly two shapes, uniformly in the incoming
state: a retrieval failure that skips the entry, or per-archive
processing of the downloaded archive; both extend the download log. -/
theorem downloadPhase_cases (cfg : Config) (remote : Remote) (ent : ManifestEntry) :
    (∃ arch log, ∀ x, downloadPhase cfg remote ent x =
        processArchive cfg ent arch { x with downloads := x.downloads ++ log }) ∨
    (∃ log, ∀ x, downloadPhase cfg remote ent x =
        skip1 { x with downloads := x.downloads ++ log }) := by
  by_cases hd : cfg.use_dual_base = true
  · rcases htd : try_download_with_fallback remote ent.path cfg.file_extension
      with ⟨_ | arch, log⟩
    · exact Or.inr ⟨log, fun x => by unfold downloadPhase; rw [if_pos hd, htd]⟩
    · exact Or.inl ⟨arch, log, fun x => by unfold downloadPhase; rw [if_pos hd, htd]⟩
  · cases hdd : remote.download (PRIMARY_BASE ++ relWithExt ent.path cfg.file_extension) with
    | none =>
      refine Or.inr ⟨[PRIMARY_BASE ++ relWithExt ent.path cfg.file_extension], fun x => ?_⟩
      unfold downloadPhase
      rw [if_neg hd]
      dsimp only
      rw [hdd]
    | some arch =>
      refine Or.inl ⟨arch, [PRIMARY_BASE ++ relWithExt ent.path cfg.file_extension], fun x => ?_⟩
      unfold downloadPhase
      rw [if_neg hd]
      dsimp only
      rw [hdd]

/-- Master dissection of the download phase: the output file gains a
record list, the dedup set grows, the written counter counts the new
records, the skip counter counts the entry exactly when nothing was
written, and the query log is untouched. -/
theorem downloadPhase_split (cfg : Config) (remote : Remote) (ent : ManifestEntry)
    (s : RunState) :
    ∃ L : List Record,
      (downloadPhase cfg remote ent s).outFile = s.outFile ++ L ∧
      s.pairs ⊆ (downloadPhase cfg remote ent s).pairs ∧
      (downloadPhase cfg remote ent s).nWritten = s.nWritten + L.length ∧
      (downloadPhase cfg remote ent s).nSkipped =
        s.nSkipped + (if L.isEmpty then 1 else 0) ∧
      (downloadPhase cfg remote ent s).headQueries = s.headQueries := by
  rcases downloadPhase_cases cfg remote ent with ⟨arch, log, hu⟩ | ⟨log, hu⟩
  · rw [hu s]
    obtain ⟨L, h1, h2, h3, -, h5, h6, -⟩ :=
      processArchive_split cfg ent arch { s with downloads := s.downloads ++ log }
    exact ⟨L, h1, h2, h5, h6, h3⟩
  · rw [hu s]
    exact ⟨[], by simp [skip1], fun a ha => ha, by simp [skip1], by simp [skip1], rfl⟩

/-- The download phase preserves the dedup-set-in-file invariant. -/
theorem downloadPhase_inv (cfg : Config) (remote : Remote) (ent : ManifestEntry)
    (s : RunState) (h : s.pairs ⊆ pairsFromFile s.outFile) :
    (downloadPhase cfg remote ent s).pairs ⊆
      pairsFromFile (downloadPhase cfg remote ent s).outFile := by
  rcases downloadPhase_cases cfg remote ent with ⟨arch, log, hu⟩ | ⟨log, hu⟩
  · rw [hu s]
    exact processArchive_inv cfg ent arch _ h
  · rw [hu s]
    exact h

/-- Under resume, the download phase satisfies `AppendsOK`. -/
theorem downloadPhase_AOK (cfg : Config) (remote : Remote) (ent : ManifestEntry)
    (s : RunState) (hres : cfg.resume = true) :
    AppendsOK s (downloadPhase cfg remote ent s) := by
  rcases downloadPhase_cases cfg remote ent with ⟨arch, log, hu⟩ | ⟨log, hu⟩
  · rw [hu s]
    exact AppendsOK_trans
      (AppendsOK_of_eq s { s with downloads := s.downloads ++ log } rfl rfl)
      (processArchive_AOK cfg ent arch { s with downloads := s.downloads ++ log } hres)
  · rw [hu s]
    exact AppendsOK_of_eq s _ rfl rfl

/-- Saturation of the download phase. -/
theorem downloadPhase_sat (cfg : Config) (remote : Remote) (ent : ManifestEntry)
    (s s' : RunState) (hres : cfg.resume = true)
    (h : (downloadPhase cfg remote ent s).pairs ⊆ s'.pairs) :
    (downloadPhase cfg remote ent s').outFile = s'.outFile ∧
    (downloadPhase cfg remote ent s').pairs = s'.pairs ∧
    (downloadPhase cfg remote ent s').nWritten = s'.nWritten := by
  rcases downloadPhase_cases cfg remote ent with ⟨arch, log, hu⟩ | ⟨log, hu⟩
  · rw [hu s] at h
    rw [hu s']
    exact processArchive_sat cfg ent arch { s with downloads := s.downloads ++ log }
      { s' with downloads := s'.downloads ++ log } hres h
  · rw [hu s']
    exact ⟨rfl, rfl, rfl⟩

/-- Master dissection of one manifest entry: the output file gains a
record list, the dedup set grows, the written counter counts the new
records, the skip counter counts the entry exactly when nothing was
written, and the query log gains the guard query when a ceiling is
configured. -/
theorem processEntry_split (cfg : Config) (remote : Remote) (s : RunState)
    (ent : ManifestEntry) :
    ∃ L : List Record,
      (processEntry cfg remote s ent).outFile = s.outFile ++ L ∧
      s.pairs ⊆ (processEntry cfg remote s ent).pairs ∧
      (processEntry cfg remote s ent).nWritten = s.nWritten + L.length ∧
      (processEntry cfg remote s ent).nSkipped =
        s.nSkipped + (if L.isEmpty then 1 else 0) ∧
      (processEntry cfg remote s ent).headQueries =
        s.headQueries ++ guardLog cfg ent := by
  unfold processEntry
  cases hm : cfg.max_filesize_mb with
  | none =>
    obtain ⟨L, h1, h2, h3, h4, h5⟩ := downloadPhase_split cfg remote ent s
    exact ⟨L, h1, h2, h3, h4, by rw [h5]; simp [guardLog, hm]⟩
  | some m =>
    dsimp only
    cases hh : remote.headSize (PRIMARY_BASE ++ relWithExt ent.path cfg.file_extension) with
    | some sz =>
      dsimp only
      by_cases hgt : sz > m * 1024 * 1024
      · rw [if_pos hgt]
        refine ⟨[], by simp [skip1], fun a ha => ha, by simp [skip1], by simp [skip1], ?_⟩
        simp [skip1, guardLog, hm]
      · rw [if_neg hgt]
        obtain ⟨L, h1, h2, h3, h4, h5⟩ := downloadPhase_split cfg remote ent
          { s with headQueries :=
              s.headQueries ++ [PRIMARY_BASE ++ relWithExt ent.path cfg.file_extension] }
        refine ⟨L, h1, h2, h3, h4, ?_⟩
        rw [h5]
        simp [guardLog, hm]
    | none =>
      obtain ⟨L, h1, h2, h3, h4, h5⟩ := downloadPhase_split cfg remote ent
        { s with headQueries :=
            s.headQueries ++ [PRIMARY_BASE ++ relWithExt ent.path cfg.file_extension] }
      refine ⟨L, h1, h2, h3, h4, ?_⟩
      rw [h5]
      simp [guardLog, hm]

/-- One manifest entry preserves the dedup-set-in-file invariant. -/
theorem processEntry_inv (cfg : Config) (remote : Remote) (s : RunState)
    (ent : ManifestEntry) (h : s.pairs ⊆ pairsFromFile s.outFile) :
    (processEntry cfg remote s ent).pairs ⊆
      pairsFromFile (processEntry cfg remote s ent).outFile := by
  unfold processEntry
  cases hm : cfg.max_filesize_mb with
  | none => exact downloadPhase_inv cfg remote ent s h
  | some m =>
    dsimp only
    cases hh : remote.headSize (PRIMARY_BASE ++ relWithExt ent.path cfg.file_extension) with
    | some sz =>
      dsimp only
      by_cases hgt : sz > m * 1024 * 1024
      · rw [if_pos hgt]
        exact h
      · rw [if_neg hgt]
        exact downloadPhase_inv cfg remote ent _ h
    | none => exact downloadPhase_inv cfg remote ent _ h

/-- Under resume, one manifest entry satisfies `AppendsOK`. -/
theorem processEntry_AOK (cfg : Config) (remote : Remote) (s : RunState)
    (ent : ManifestEntry) (hres : cfg.resume = true) :
    AppendsOK s (processEntry cfg remote s ent) := by
  unfold processEntry
  cases hm : cfg.max_filesize_mb with
  | none => exact downloadPhase_AOK cfg remote ent s hres
  | some m =>
    dsimp only
    cases hh : remote.headSize (PRIMARY_BASE ++ relWithExt ent.path cfg.file_extension) with
    | some sz =>
      dsimp only
      by_cases hgt : sz > m * 1024 * 1024
      · rw [if_pos hgt]
        exact AppendsOK_of_eq s _ rfl rfl
      · rw [if_neg hgt]
        exact AppendsOK_trans
          (AppendsOK_of_eq s { s with headQueries :=
            s.headQueries ++ [PRIMARY_BASE ++ relWithExt ent.path cfg.file_extension] } rfl rfl)
          (downloadPhase_AOK cfg remote ent { s with headQueries :=
            s.headQueries ++ [PRIMARY_BASE ++ relWithExt ent.path cfg.file_extension] } hres)
    | none =>
      dsimp only
      exact AppendsOK_trans
        (AppendsOK_of_eq s { s with headQueries :=
          s.headQueries ++ [PRIMARY_BASE ++ relWithExt ent.path cfg.file_extension] } rfl rfl)
        (downloadPhase_AOK cfg remote ent { s with headQueries :=
          s.headQueries ++ [PRIMARY_BASE ++ relWithExt ent.path cfg.file_extension] } hres)

/-- Saturation of one manifest entry. -/
theorem processEntry_sat (cfg : Config) (remote : Remote) (s s' : RunState)
    (ent : ManifestEntry) (hres : cfg.resume = true)
    (h : (processEntry cfg remote s ent).pairs ⊆ s'.pairs) :
    (processEntry cfg remote s' ent).outFile = s'.outFile ∧
    (processEntry cfg remote s' ent).pairs = s'.pairs ∧
    (processEntry cfg remote s' ent).nWritten = s'.nWritten := by
  unfold processEntry at h ⊢
  cases hm : cfg.max_filesize_mb with
  | none =>
    rw [hm] at h
    exact downloadPhase_sat cfg remote ent s s' hres h
  | some m =>
    rw [hm] at h
    dsimp only at h ⊢
    cases hh : remote.headSize (PRIMARY_BASE ++ relWithExt ent.path cfg.file_extension) with
    | some sz =>
      rw [hh] at h
      dsimp only at h ⊢
      by_cases hgt : sz > m * 1024 * 1024
      · rw [if_pos hgt]
        exact ⟨rfl, rfl, rfl⟩
      · rw [if_neg hgt] at h ⊢
        exact downloadPhase_sat cfg remote ent _ _ hres h
    | none =>
      rw [hh] at h
      exact downloadPhase_sat cfg remote ent _ _ hres h

/-- Master dissection of a whole run over the attempted entries: the
output file gains a record list, the dedup set grows, and the written
counter counts the new records. -/
theorem runEntries_split (cfg : Config) (remote : Remote)
    (es : List ManifestEntry) (s : RunState) :
    ∃ L : List Record,
      (runEntries cfg remote es s).outFile = s.outFile ++ L ∧
      s.pairs ⊆ (runEntries cfg remote es s).pairs ∧
      (runEntries cfg remote es s).nWritten = s.nWritten + L.length := by
  induction es generalizing s with
  | nil => exact ⟨[], by simp [runEntries], fun a ha => ha, by simp [runEntries]⟩
  | cons e t ih =>
    have hstep : runEntries cfg remote (e :: t) s =
        runEntries cfg remote t (processEntry cfg remote s e) := rfl
    rw [hstep]
    obtain ⟨L1, g1, g2, g3, -, -⟩ := processEntry_split cfg remote s e
    obtain ⟨L2, h1, h2, h3⟩ := ih (processEntry cfg remote s e)
    refine ⟨L1 ++ L2, ?_, fun a ha => h2 (g2 ha), ?_⟩
    · rw [h1, g1, List.append_assoc]
    · rw [h3, g3]
      simp [Nat.add_assoc]

/-- Accounting over a whole run: the skip counter gains one per attempted
entry that wrote nothing, so skips plus writing entries equals the number
of attempted entries. -/
theorem runEntries_accounting (cfg : Config) (remote : Remote)
    (es : List ManifestEntry) (s : RunState) :
    (runEntries cfg remote es s).nSkipped + writingEntries cfg remote es s =
      s.nSkipped + es.length := by
  induction es generalizing s with
  | nil => simp [runEntries, writingEntries]
  | cons e t ih =>
    have hstep : runEntries cfg remote (e :: t) s =
        runEntries cfg remote t (processEntry cfg remote s e) := rfl
    rw [hstep]
    obtain ⟨L, g1, -, -, g4, -⟩ := processEntry_split cfg remote s e
    have hc : entryAppendCount cfg remote s e = L.length := by
      unfold entryAppendCount
      rw [g1]
      simp
    have hw : writingEntries cfg remote (e :: t) s =
        (if 0 < entryAppendCount cfg remote s e then 1 else 0) +
          writingEntries cfg remote t (processEntry cfg remote s e) := rfl
    rw [hw, hc]
    have hih := ih (processEntry cfg remote s e)
    cases L with
    | nil =>
      have g4' : (processEntry cfg remote s e).nSkipped = s.nSkipped + 1 := by
        simpa using g4
      rw [if_neg (by simp)]
      simp only [List.length_cons]
      omega
    | cons r L' =>
      have g4' : (processEntry cfg remote s e).nSkipped = s.nSkipped := by
        simpa using g4
      rw [if_pos (by simp)]
      simp only [List.length_cons]
      omega

/-- A whole run preserves the dedup-set-in-file invariant. -/
theorem runEntries_inv (cfg : Config) (remote : Remote)
    (es : List ManifestEntry) (s : RunState)
    (h : s.pairs ⊆ pairsFromFile s.outFile) :
    (runEntries cfg remote es s).pairs ⊆
      pairsFromFile (runEntries cfg remote es s).outFile := by
  induction es generalizing s with
  | nil => exact h
  | cons e t ih =>
    exact ih (processEntry cfg remote s e) (processEntry_inv cfg remote s e h)

/-- Under resume, a whole run satisfies `AppendsOK`. -/
theorem runEntries_AOK (cfg : Config) (remote : Remote)
    (es : List ManifestEntry) (s : RunState) (hres : cfg.resume = true) :
    AppendsOK s (runEntries cfg remote es s) := by
  induction es generalizing s with
  | nil => exact AppendsOK_refl s
  | cons e t ih =>
    exact AppendsOK_trans (processEntry_AOK cfg remote s e hres)
      (ih (processEntry cfg remote s e))

/-- Saturation of a whole run: starting from a dedup set that covers the
final set of a first run, the second run appends nothing. -/
theorem runEntries_sat (cfg : Config) (remote : Remote)
    (es : List ManifestEntry) (s s' : RunState) (hres : cfg.resume = true)
    (h : (runEntries cfg remote es s).pairs ⊆ s'.pairs) :
    (runEntries cfg remote es s').outFile = s'.outFile ∧
    (runEntries cfg remote es s').pairs = s'.pairs ∧
    (runEntries cfg remote es s').nWritten = s'.nWritten := by
  induction es generalizing s s' with
  | nil => exact ⟨rfl, rfl, rfl⟩
  | cons e t ih =>
    have hstep : runEntries cfg remote (e :: t) s =
        runEntries cfg remote t (processEntry cfg remote s e) := rfl
    rw [hstep] at h
    obtain ⟨L2, -, hmono, -⟩ := runEntries_split cfg remote t (processEntry cfg remote s e)
    have hesat := processEntry_sat cfg remote s s' e hres (fun a ha => h (hmono ha))
    have hstep' : runEntries cfg remote (e :: t) s' =
        runEntries cfg remote t (processEntry cfg remote s' e) := rfl
    rw [hstep']
    have hsub : (runEntries cfg remote t (processEntry cfg remote s e)).pairs ⊆
        (processEntry cfg remote s' e).pairs := by
      rw [hesat.2.1]
      exact h
    obtain ⟨k1, k2, k3⟩ := ih (processEntry cfg remote s e) (processEntry cfg remote s' e) hsub
    exact ⟨k1.trans hesat.1, k2.trans hesat.2.1, k3.trans hesat.2.2⟩

/-- Under resume, the initial dedup set is the one rebuilt from the
existing output file. -/
theorem initState_pairs_resume (cfg : Config) (F : List Record)
    (hres : cfg.resume = true) :
    (initState cfg F).pairs = pairsFromFile F := by
  unfold initState
  rw [if_pos hres]

/-- C8: running the pipeline twice against the same manifest lines and
remote responses with resume enabled leaves the output file exactly as
after the first run, and the second run writes zero records, because the
dedup set rebuilt from the persisted file covers every pair id the run
can produce. -/
theorem C8_idempotent_rerun (cfg : Config) (remote : Remote)
    (fileLines : List String) (F0 : List Record) (hres : cfg.resume = true) :
    (build_pubmed_image_caption_dataset_streaming cfg remote fileLines
        (build_pubmed_image_caption_dataset_streaming cfg remote fileLines F0).outFile).outFile =
      (build_pubmed_image_caption_dataset_streaming cfg remote fileLines F0).outFile ∧
    (build_pubmed_image_caption_dataset_streaming cfg remote fileLines
        (build_pubmed_image_caption_dataset_streaming cfg remote fileLines F0).outFile).nWritten = 0 := by
  unfold build_pubmed_image_caption_dataset_streaming
  have hi1 : (initState cfg F0).pairs ⊆ pairsFromFile (initState cfg F0).outFile := by
    rw [initState_pairs_resume cfg F0 hres]
    exact fun a ha => ha
  have hinv := runEntries_inv cfg remote
    (readEntries cfg.subset_size (fileLines.drop 1)) (initState cfg F0) hi1
  have hsub : (runEntries cfg remote (readEntries cfg.subset_size (fileLines.drop 1))
      (initState cfg F0)).pairs ⊆
      (initState cfg (runEntries cfg remote (readEntries cfg.subset_size (fileLines.drop 1))
        (initState cfg F0)).outFile).pairs := by
    rw [initState_pairs_resume cfg _ hres]
    exact hinv
  have hsat := runEntries_sat cfg remote
    (readEntries cfg.subset_size (fileLines.drop 1)) (initState cfg F0)
    (initState cfg (runEntries cfg remote (readEntries cfg.subset_size (fileLines.drop 1))
      (initState cfg F0)).outFile) hres hsub
  exact ⟨hsat.1, hsat.2.2⟩

/-- C1 (amended): with resume enabled, the run appends only records whose
pair ids are pairwise distinct, nonempty, and absent from the set rebuilt
from the initial file; moreover, at the output-writing step, a pair id
already in the in-memory set is a no-op under resume, and a pair id not
in the set appends exactly one line and adds the pair id to the set. -/
theorem C1_dedup_append_unique :
    (∀ (cfg : Config) (remote : Remote) (fileLines : List String) (F0 : List Record),
      cfg.resume = true →
      ∃ L, (build_pubmed_image_caption_dataset_streaming cfg remote fileLines F0).outFile =
            F0 ++ L ∧
        L.Pairwise (fun a b => a.pair_id ≠ b.pair_id) ∧
        ∀ r ∈ L, r.pair_id ∉ pairsFromFile F0 ∧ r.pair_id ≠ "") ∧
    (∀ (ctx : FigCtx) (fig : Fig) (sw : RunState × Bool),
      ctx.resume = true → ctx.pmid ++ "_" ++ fig.fig_id ∈ sw.1.pairs →
      figStep ctx sw fig = sw) ∧
    (∀ (ctx : FigCtx) (fig : Fig) (sw : RunState × Bool) (r : Record),
      figAttempt ctx fig = some r → r.pair_id ∉ sw.1.pairs →
      (figStep ctx sw fig).1.outFile = sw.1.outFile ++ [r] ∧
      (figStep ctx sw fig).1.pairs = r.pair_id :: sw.1.pairs) := by
  refine ⟨?_, ?_, ?_⟩
  · intro cfg remote fileLines F0 hres
    obtain ⟨hsub, L, hf, hpw, hmem⟩ := runEntries_AOK cfg remote
      (readEntries cfg.subset_size (fileLines.drop 1)) (initState cfg F0) hres
    refine ⟨L, hf, hpw, fun r hr => ?_⟩
    obtain ⟨hna, -, hne⟩ := hmem r hr
    rw [initState_pairs_resume cfg F0 hres] at hna
    exact ⟨hna, hne⟩
  · exact fun ctx fig sw hres hmem => figStep_dedup ctx fig sw hres hmem
  · intro ctx fig sw r hA hnot
    rw [figStep_char, hA]
    dsimp only
    rw [if_neg (fun hc => hnot hc.2)]
    exact ⟨rfl, rfl⟩

/-- C2 (amended): the skip counter gains exactly one per attempted entry
that wrote no record and is untouched by entries that wrote at least one,
so skips plus writing entries equals attempted entries; the written
counter counts records, one per appended line, not entries. -/
theorem C2_accounting :
    (∀ (cfg : Config) (remote : Remote) (es : List ManifestEntry) (s : RunState),
      (runEntries cfg remote es s).nSkipped + writingEntries cfg remote es s =
        s.nSkipped + es.length) ∧
    (∀ (cfg : Config) (remote : Remote) (es : List ManifestEntry) (s : RunState),
      (runEntries cfg remote es s).nWritten + s.outFile.length =
        s.nWritten + (runEntries cfg remote es s).outFile.length) ∧
    (∀ (cfg : Config) (remote : Remote) (s : RunState) (ent : ManifestEntry),
      ((processEntry cfg remote s ent).outFile = s.outFile ∧
        (processEntry cfg remote s ent).nSkipped = s.nSkipped + 1) ∨
      (s.outFile.length < (processEntry cfg remote s ent).outFile.length ∧
        (processEntry cfg remote s ent).nSkipped = s.nSkipped)) := by
  refine ⟨runEntries_accounting, ?_, ?_⟩
  · intro cfg remote es s
    obtain ⟨L, h1, -, h3⟩ := runEntries_split cfg remote es s
    rw [h1, h3]
    simp [Nat.add_comm, Nat.add_assoc, Nat.add_left_comm]
  · intro cfg remote s ent
    obtain ⟨L, h1, -, -, h4, -⟩ := processEntry_split cfg remote s ent
    cases L with
    | nil =>
      left
      constructor
      · rw [h1]
        simp
      · simpa using h4
    | cons r L' =>
      right
      constructor
      · rw [h1]
        simp
      · simpa using h4

/-- C5 (amended): every caption step either saves nothing or saves
exactly one image file at the deterministic relative path built from the
resolved pmc and the figure id (with the normalizer suffix adjustment);
and with resume enabled a caption whose pair id is already in the dedup
set triggers no extraction, normalization, save, or append at all. -/
theorem C5_image_paths_no_resave :
    (∀ (ctx : FigCtx) (fig : Fig) (sw : RunState × Bool),
      (figStep ctx sw fig).1.saves = sw.1.saves ∨
      (figStep ctx sw fig).1.saves = sw.1.saves ++
        [ensureJpgPath (ctx.pmc ++ "/" ++ ctx.pmc ++ "_fig-" ++ fig.fig_id ++ ".jpg")]) ∧
    (∀ (ctx : FigCtx) (fig : Fig) (sw : RunState × Bool),
      ctx.resume = true → ctx.pmid ++ "_" ++ fig.fig_id ∈ sw.1.pairs →
      figStep ctx sw fig = sw) := by
  constructor
  · intro ctx fig sw
    rcases figStep_split ctx fig sw with heq | ⟨r, hA, hnot, heq⟩
    · left
      rw [heq]
    · right
      rw [heq]
      obtain ⟨-, -, -, hi, -⟩ := figAttempt_fields ctx fig r hA
      rw [← hi]
  · exact fun ctx fig sw hres hmem => figStep_dedup ctx fig sw hres hmem

/-- Both endpoints failing makes the download phase skip the entry after
logging the two download attempts, leaving everything else untouched. -/
theorem downloadPhase_bothFail (cfg : Config) (remote : Remote) (ent : ManifestEntry)
    (s : RunState) (hdual : cfg.use_dual_base = true)
    (hp : remote.download (PRIMARY_BASE ++ relWithExt ent.path cfg.file_extension) = none)
    (hf : remote.download (FALLBACK_BASE ++ relWithExt ent.path cfg.file_extension) = none) :
    downloadPhase cfg remote ent s =
      skip1 { s with downloads := s.downloads ++
        [PRIMARY_BASE ++ relWithExt ent.path cfg.file_extension,
         FALLBACK_BASE ++ relWithExt ent.path cfg.file_extension] } := by
  unfold downloadPhase try_download_with_fallback
  dsimp only
  rw [if_pos hdual, hp, hf]

/-- When the primary endpoint serves an archive, the download phase only
consults the primary endpoint: any two remotes agreeing there behave the
same. -/
theorem downloadPhase_primary_only (cfg : Config) (remote remote' : Remote)
    (ent : ManifestEntry) (s : RunState) (a : Archive)
    (hdual : cfg.use_dual_base = true)
    (hp : remote.download (PRIMARY_BASE ++ relWithExt ent.path cfg.file_extension) = some a)
    (hp' : remote'.download (PRIMARY_BASE ++ relWithExt ent.path cfg.file_extension) = some a) :
    downloadPhase cfg remote ent s = downloadPhase cfg remote' ent s := by
  unfold downloadPhase try_download_with_fallback
  dsimp only
  rw [if_pos hdual, if_pos hdual, hp, hp']

/-- When the primary fails and the fallback serves `a`, the download
phase behaves like the one where the primary had served `a`, except for
the extra logged download attempt. -/
theorem downloadPhase_fallback (cfg : Config) (remote : Remote) (ent : ManifestEntry)
    (s : RunState) (a : Archive) (hdual : cfg.use_dual_base = true)
    (hp : remote.download (PRIMARY_BASE ++ relWithExt ent.path cfg.file_extension) = none)
    (hf : remote.download (FALLBACK_BASE ++ relWithExt ent.path cfg.file_extension) = some a) :
    downloadPhase cfg remote ent s =
      { downloadPhase cfg
          (patchPrimary remote (PRIMARY_BASE ++ relWithExt ent.path cfg.file_extension) a)
          ent s with
        downloads := s.downloads ++
          [PRIMARY_BASE ++ relWithExt ent.path cfg.file_extension,
           FALLBACK_BASE ++ relWithExt ent.path cfg.file_extension] } := by
  have hp' : (patchPrimary remote (PRIMARY_BASE ++ relWithExt ent.path cfg.file_extension) a).download
      (PRIMARY_BASE ++ relWithExt ent.path cfg.file_extension) = some a := by
    unfold patchPrimary
    simp
  unfold downloadPhase try_download_with_fallback
  dsimp only
  rw [if_pos hdual, if_pos hdual, hp, hf, hp']
  dsimp only
  conv_lhs => rw [processArchive_downloads]
  conv_rhs => rw [processArchive_downloads]

/-- The guard and download phases ignore the configured ceiling value:
only the guard test itself reads it. -/
theorem downloadPhase_ignores_max (cfg : Config) (M : Option Nat) (remote : Remote)
    (ent : ManifestEntry) (s : RunState) :
    downloadPhase { cfg with max_filesize_mb := M } remote ent s =
      downloadPhase cfg remote ent s := rfl

/-- C6: with dual-base fallback enabled, the primary endpoint is tried
first and decides the entry alone when it succeeds; when it fails and the
fallback serves the archive, the entry is processed exactly as if the
primary had served it, differing only in the logged download attempts;
and when both fail, the entry is skipped with nothing written. -/
theorem C6_dual_base_fallback :
    (∀ (cfg : Config) (remote remote' : Remote) (s : RunState) (ent : ManifestEntry)
        (a : Archive),
      cfg.use_dual_base = true →
      remote'.headSize (PRIMARY_BASE ++ relWithExt ent.path cfg.file_extension) =
        remote.headSize (PRIMARY_BASE ++ relWithExt ent.path cfg.file_extension) →
      remote.download (PRIMARY_BASE ++ relWithExt ent.path cfg.file_extension) = some a →
      remote'.download (PRIMARY_BASE ++ relWithExt ent.path cfg.file_extension) = some a →
      processEntry cfg remote s ent = processEntry cfg remote' s ent) ∧
    (∀ (cfg : Config) (remote : Remote) (s : RunState) (ent : ManifestEntry)
        (a : Archive),
      cfg.use_dual_base = true →
      remote.download (PRIMARY_BASE ++ relWithExt ent.path cfg.file_extension) = none →
      remote.download (FALLBACK_BASE ++ relWithExt ent.path cfg.file_extension) = some a →
      (processEntry cfg remote s ent).outFile =
        (processEntry cfg (patchPrimary remote
          (PRIMARY_BASE ++ relWithExt ent.path cfg.file_extension) a) s ent).outFile ∧
      (processEntry cfg remote s ent).pairs =
        (processEntry cfg (patchPrimary remote
          (PRIMARY_BASE ++ relWithExt ent.path cfg.file_extension) a) s ent).pairs ∧
      (processEntry cfg remote s ent).saves =
        (processEntry cfg (patchPrimary remote
          (PRIMARY_BASE ++ relWithExt ent.path cfg.file_extension) a) s ent).saves ∧
      (processEntry cfg remote s ent).nWritten =
        (processEntry cfg (patchPrimary remote
          (PRIMARY_BASE ++ relWithExt ent.path cfg.file_extension) a) s ent).nWritten ∧
      (processEntry cfg remote s ent).nSkipped =
        (processEntry cfg (patchPrimary remote
          (PRIMARY_BASE ++ relWithExt ent.path cfg.file_extension) a) s ent).nSkipped ∧
      (processEntry cfg remote s ent).headQueries =
        (processEntry cfg (patchPrimary remote
          (PRIMARY_BASE ++ relWithExt ent.path cfg.file_extension) a) s ent).headQueries) ∧
    (∀ (cfg : Config) (remote : Remote) (s : RunState) (ent : ManifestEntry),
      cfg.use_dual_base = true →
      remote.download (PRIMARY_BASE ++ relWithExt ent.path cfg.file_extension) = none →
      remote.download (FALLBACK_BASE ++ relWithExt ent.path cfg.file_extension) = none →
      sizeGuardSkips cfg remote ent = false →
      processEntry cfg remote s ent =
        skip1 { s with headQueries := s.headQueries ++ guardLog cfg ent,
                       downloads := s.downloads ++
                         [PRIMARY_BASE ++ relWithExt ent.path cfg.file_extension,
                          FALLBACK_BASE ++ relWithExt ent.path cfg.file_extension] }) := by
  refine ⟨?_, ?_, ?_⟩
  · intro cfg remote remote' s ent a hdual hH hp hp'
    unfold processEntry
    cases hm : cfg.max_filesize_mb with
    | none => exact downloadPhase_primary_only cfg remote remote' ent s a hdual hp hp'
    | some m =>
      dsimp only
      rw [hH]
      cases hh : remote.headSize (PRIMARY_BASE ++ relWithExt ent.path cfg.file_extension) with
      | some sz =>
        dsimp only
        by_cases hgt : sz > m * 1024 * 1024
        · rw [if_pos hgt, if_pos hgt]
        · rw [if_neg hgt, if_neg hgt]
          exact downloadPhase_primary_only cfg remote remote' ent _ a hdual hp hp'
      | none => exact downloadPhase_primary_only cfg remote remote' ent _ a hdual hp hp'
  · intro cfg remote s ent a hdual hp hf
    have hfb := fun x => downloadPhase_fallback cfg remote ent x a hdual hp hf
    have hHs : (patchPrimary remote
        (PRIMARY_BASE ++ relWithExt ent.path cfg.file_extension) a).headSize =
        remote.headSize := rfl
    unfold processEntry
    cases hm : cfg.max_filesize_mb with
    | none =>
      rw [hfb s]
      exact ⟨rfl, rfl, rfl, rfl, rfl, rfl⟩
    | some m =>
      dsimp only
      rw [hHs]
      cases hh : remote.headSize (PRIMARY_BASE ++ relWithExt ent.path cfg.file_extension) with
      | some sz =>
        dsimp only
        by_cases hgt : sz > m * 1024 * 1024
        · rw [if_pos hgt, if_pos hgt]
          exact ⟨rfl, rfl, rfl, rfl, rfl, rfl⟩
        · rw [if_neg hgt, if_neg hgt]
          rw [hfb _]
          exact ⟨rfl, rfl, rfl, rfl, rfl, rfl⟩
      | none =>
        rw [hfb _]
        exact ⟨rfl, rfl, rfl, rfl, rfl, rfl⟩
  · intro cfg remote s ent hdual hp hf hg
    unfold processEntry
    unfold sizeGuardSkips at hg
    cases hm : cfg.max_filesize_mb with
    | none =>
      rw [downloadPhase_bothFail cfg remote ent s hdual hp hf]
      have : guardLog cfg ent = [] := by
        unfold guardLog
        rw [hm]
      rw [this]
      simp [skip1]
    | some m =>
      rw [hm] at hg
      dsimp only at hg ⊢
      have hgl : guardLog cfg ent =
          [PRIMARY_BASE ++ relWithExt ent.path cfg.file_extension] := by
        unfold guardLog
        rw [hm]
      rw [hgl]
      cases hh : remote.headSize (PRIMARY_BASE ++ relWithExt ent.path cfg.file_extension) with
      | some sz =>
        rw [hh] at hg
        dsimp only at hg ⊢
        have hgt : ¬ sz > m * 1024 * 1024 := by simpa using hg
        rw [if_neg hgt]
        rw [downloadPhase_bothFail cfg remote ent _ hdual hp hf]
      | none =>
        rw [downloadPhase_bothFail cfg remote ent _ hdual hp hf]

/-- C7: with no ceiling configured no HEAD query is made; with a ceiling
configured and a reported size above it the entry is skipped before any
download, after exactly one HEAD query against the primary endpoint; and
with the size unavailable or within the ceiling the run continues exactly
as the guard-free configuration would from the state with the query
logged. -/
theorem C7_size_guard :
    (∀ (cfg : Config) (remote : Remote) (s : RunState) (ent : ManifestEntry),
      cfg.max_filesize_mb = none →
      (processEntry cfg remote s ent).headQueries = s.headQueries) ∧
    (∀ (cfg : Config) (remote : Remote) (s : RunState) (ent : ManifestEntry)
        (m sz : Nat),
      cfg.max_filesize_mb = some m →
      remote.headSize (PRIMARY_BASE ++ relWithExt ent.path cfg.file_extension) = some sz →
      sz > m * 1024 * 1024 →
      processEntry cfg remote s ent =
        skip1 { s with headQueries := s.headQueries ++
          [PRIMARY_BASE ++ relWithExt ent.path cfg.file_extension] }) ∧
    (∀ (cfg : Config) (remote : Remote) (s : RunState) (ent : ManifestEntry) (m : Nat),
      cfg.max_filesize_mb = some m →
      (remote.headSize (PRIMARY_BASE ++ relWithExt ent.path cfg.file_extension) = none ∨
        ∃ sz, remote.headSize (PRIMARY_BASE ++ relWithExt ent.path cfg.file_extension) = some sz ∧
          ¬ sz > m * 1024 * 1024) →
      processEntry cfg remote s ent =
        processEntry { cfg with max_filesize_mb := none } remote
          { s with headQueries := s.headQueries ++
            [PRIMARY_BASE ++ relWithExt ent.path cfg.file_extension] } ent) := by
  refine ⟨?_, ?_, ?_⟩
  · intro cfg remote s ent hm
    obtain ⟨L, -, -, -, -, h5⟩ := processEntry_split cfg remote s ent
    rw [h5]
    simp [guardLog, hm]
  · intro cfg remote s ent m sz hm hh hgt
    unfold processEntry
    rw [hm]
    dsimp only
    rw [hh]
    dsimp only
    rw [if_pos hgt]
  · intro cfg remote s ent m hm hok
    unfold processEntry
    rw [hm]
    dsimp only
    rcases hok with hh | ⟨sz, hh, hgt⟩
    · rw [hh]
      dsimp only
      exact (downloadPhase_ignores_max cfg none remote ent _).symm
    · rw [hh]
      dsimp only
      rw [if_neg hgt]
      exact (downloadPhase_ignores_max cfg none remote ent _).symm

/-- C10: every record written for an entry takes its pmid and pmcid from
the first parsed caption (with the manifest values as fallback when that
caption omits them or they are empty), and its pair id is built from that
single resolved pmid, even for later captions with different own ids. -/
theorem C10_ids_from_first_caption (cfg : Config) (ent : ManifestEntry)
    (arch : Archive) (s : RunState) (f0 : Fig) (rest : List Fig)
    (hp : arch.parse = ParseOutcome.ok (f0 :: rest)) :
    ∀ r ∈ (processArchive cfg ent arch s).outFile,
      r ∈ s.outFile ∨
      (r.pmid = resolveField f0.figPmid ent.pmid ∧
       r.pmcid = resolveField f0.figPmc ent.pmcid ∧
       ∃ f ∈ f0 :: rest,
         r.pair_id = resolveField f0.figPmid ent.pmid ++ "_" ++ f.fig_id) := by
  intro r hr
  obtain ⟨L, h1, -, -, -, -, -, h8⟩ := processArchive_split cfg ent arch s
  rw [h1] at hr
  rcases List.mem_append.mp hr with h | h
  · exact Or.inl h
  · right
    obtain ⟨f0', rest', hp', f, hf, hAf⟩ := h8 r h
    have hfig : f0 = f0' ∧ rest = rest' := by
      have := hp.symm.trans hp'
      injection this with hl
      injection hl with he1 he2
      exact ⟨he1, he2⟩
    obtain ⟨he1, he2⟩ := hfig
    subst he1
    subst he2
    obtain ⟨hpid, hm, hc, -, -⟩ := figAttempt_fields (archCtx cfg ent arch f0) f r hAf
    exact ⟨hm, hc, f, hf, hpid⟩

end SymbolicProofs

/-! ## The matcher steps and the manifest reader -/

/-- C3 helper: the matcher of the source equals the three specified steps
chained in order. -/
theorem findMember_eq_steps (graphic_ref : String) (idx : List (String × TarMember)) :
    findMember graphic_ref idx = matchStep123 graphic_ref idx := by
  unfold findMember matchStep123 matchExact matchExt matchSubstr
  dsimp only
  cases h1 : List.lookup (strLower (pathName graphic_ref)) idx with
  | some m => simp [firstHit, h1]
  | none => simp only [firstHit, h1]

/-- The manifest loop with no subset cap reads every line. -/
theorem readEntriesAux_none (lines : List String) :
    ∀ idx, readEntriesAux none idx lines = lines.filterMap readManifestLine := by
  induction lines with
  | nil => intro idx; rfl
  | cons l ls ih =>
    intro idx
    unfold readEntriesAux
    cases hparse : readManifestLine l with
    | some e => simp [hparse, ih (idx + 1)]
    | none => simp [hparse, ih (idx + 1)]

/-- A subset cap of zero is falsy in the source and reads every line. -/
theorem readEntriesAux_zero (lines : List String) :
    ∀ idx, readEntriesAux (some 0) idx lines = readEntriesAux none idx lines := by
  induction lines with
  | nil => intro idx; rfl
  | cons l ls ih =>
    intro idx
    unfold readEntriesAux
    cases hparse : readManifestLine l with
    | some e => simp [hparse, ih (idx + 1)]
    | none => simp [hparse, ih (idx + 1)]

/-- A nonzero subset cap truncates the raw line list at the cap before
parsing, so malformed lines count against the cap. -/
theorem readEntriesAux_cap (n : Nat) (hn : n ≠ 0) :
    ∀ (lines : List String) (idx : Nat),
      readEntriesAux (some n) idx lines =
        (lines.take (n - idx)).filterMap readManifestLine := by
  intro lines
  induction lines with
  | nil => intro idx; simp [readEntriesAux]
  | cons l ls ih =>
    intro idx
    unfold readEntriesAux
    by_cases hc : idx + 1 > n
    · have hcap : (decide (n ≠ 0) && decide (idx + 1 > n)) = true := by
        simp [hn, hc]
      rw [if_pos hcap]
      have : n - idx = 0 := by omega
      rw [this]
      rfl
    · have hcf : ¬ ((decide (n ≠ 0) && decide (idx + 1 > n)) = true) := by
        simp only [Bool.and_eq_true, decide_eq_true_eq, not_and]
        intro _
        omega
      rw [if_neg hcf]
      have hsub : n - idx = (n - (idx + 1)) + 1 := by omega
      rw [hsub, List.take_succ_cons]
      cases hparse : readManifestLine l with
      | some e => simp [hparse, ih (idx + 1)]
      | none => simp [hparse, ih (idx + 1)]

/-! ## Path arithmetic for the image normalizer -/

/-- Unfolding of the directory-name split on a cons. -/
theorem splitDirName_cons (c : Char) (cs : List Char) :
    splitDirName (c :: cs) = splitNameStep c (splitDirName cs) := rfl

/-- The final component produced by the split contains no slash. -/
theorem splitDirName_name_noslash (l : List Char) :
    ∀ x ∈ (splitDirName l).2, x ≠ '/' := by
  induction l with
  | nil => intro x hx; cases hx
  | cons c cs ih =>
    intro x hx
    rw [splitDirName_cons] at hx
    unfold splitNameStep at hx
    by_cases hcond : (splitDirName cs).1 = [] ∧ c ≠ '/'
    · rw [if_pos hcond] at hx
      rcases List.mem_cons.mp hx with h | h
      · subst h
        exact hcond.2
      · exact ih x h
    · rw [if_neg hcond] at hx
      exact ih x hx

/-- The directory part produced by the split is empty or ends with a
slash. -/
theorem splitDirName_dir_shape (l : List Char) :
    (splitDirName l).1 = [] ∨ ∃ d0, (splitDirName l).1 = d0 ++ ['/'] := by
  induction l with
  | nil => exact Or.inl rfl
  | cons c cs ih =>
    rw [splitDirName_cons]
    unfold splitNameStep
    by_cases hcond : (splitDirName cs).1 = [] ∧ c ≠ '/'
    · rw [if_pos hcond]
      exact Or.inl rfl
    · rw [if_neg hcond]
      dsimp only
      rcases ih with h | ⟨d0, h⟩
      · have hc : c = '/' := by
          by_contra hne
          exact hcond ⟨h, hne⟩
        subst hc
        rw [h]
        exact Or.inr ⟨[], rfl⟩
      · rw [h]
        exact Or.inr ⟨c :: d0, rfl⟩

/-- Once the directory part is nonempty, further folding preserves the
final component. -/
theorem foldr_keep_name (d : List Char) (acc : List Char × List Char) (h : acc.1 ≠ []) :
    (List.foldr splitNameStep acc d).2 = acc.2 ∧
    (List.foldr splitNameStep acc d).1 ≠ [] := by
  induction d with
  | nil => exact ⟨rfl, h⟩
  | cons c cs ih =>
    rw [List.foldr_cons]
    obtain ⟨h2, h1⟩ := ih
    unfold splitNameStep
    rw [if_neg (fun hc => h1 hc.1)]
    exact ⟨h2, by simp⟩

/-- Folding over a slash-free list keeps everything in the final
component. -/
theorem foldr_noslash (nm : List Char) (h : ∀ x ∈ nm, x ≠ '/') :
    List.foldr splitNameStep ([], []) nm = ([], nm) := by
  induction nm with
  | nil => rfl
  | cons c cs ih =>
    rw [List.foldr_cons, ih (fun x hx => h x (List.mem_cons_of_mem c hx))]
    unfold splitNameStep
    rw [if_pos ⟨rfl, h c (List.mem_cons_self c cs)⟩]

/-- Splitting a directory part followed by a slash-free component yields
that component. -/
theorem splitDirName_append (d nm : List Char)
    (hnm : ∀ x ∈ nm, x ≠ '/')
    (hd : d = [] ∨ ∃ d0, d = d0 ++ ['/']) :
    (splitDirName (d ++ nm)).2 = nm := by
  unfold splitDirName
  rw [List.foldr_append, show List.foldr splitNameStep ([], []) nm = ([], nm)
    from foldr_noslash nm hnm]
  rcases hd with h | ⟨d0, h⟩
  · subst h
    rfl
  · subst h
    rw [List.foldr_append]
    have hstep : List.foldr splitNameStep ([], nm) ['/'] = (['/'], nm) := by
      rw [List.foldr_cons]
      unfold splitNameStep
      rw [if_neg (fun hc => hc.2 rfl)]
      rfl
    rw [hstep]
    exact (foldr_keep_name d0 (['/'], nm) (by simp)).1

/-- A path whose last character is not a slash is unchanged by the
trailing-slash strip. -/
theorem stripTrailingSlashes_last (l : List Char) (c : Char) (hc : c ≠ '/') :
    stripTrailingSlashes (l ++ [c]) = l ++ [c] := by
  unfold stripTrailingSlashes
  rw [List.reverse_append]
  rw [show ([c].reverse ++ l.reverse) = c :: l.reverse from by simp]
  rw [List.dropWhile_cons, if_neg (by simp [hc])]
  simp

/-- The extension split of a nonempty stem with `.jpg` appended is after
the dot. -/
theorem extSplitLen_append_jpg (st : List Char) (hst : st ≠ []) :
    extSplitLen (st ++ ['.', 'j', 'p', 'g']) = 4 := by
  have hcontains : (st ++ ['.', 'j', 'p', 'g']).contains '.' = true :=
    List.elem_eq_true_of_mem (List.mem_append_right _ (by simp))
  have hrev : (st ++ ['.', 'j', 'p', 'g']).reverse = 'g' :: 'p' :: 'j' :: '.' :: st.reverse := by
    rw [List.reverse_append]
    rfl
  have htake : List.takeWhile (fun c => c != '.')
      ((st ++ ['.', 'j', 'p', 'g']).reverse) = ['g', 'p', 'j'] := by
    rw [hrev]
    rw [List.takeWhile_cons, if_pos (by decide)]
    rw [List.takeWhile_cons, if_pos (by decide)]
    rw [List.takeWhile_cons, if_pos (by decide)]
    rw [List.takeWhile_cons, if_neg (by decide)]
  have hpos : 0 < st.length := List.length_pos.mpr hst
  unfold extSplitLen
  rw [if_pos hcontains]
  dsimp only
  rw [htake]
  rw [if_pos (by refine ⟨by simp, ?_⟩; simp; omega)]
  rfl

/-- The suffix of a nonempty stem with `.jpg` appended is `.jpg`. -/
theorem nameSuffix_append_jpg (st : List Char) (hst : st ≠ []) :
    nameSuffix (st ++ ['.', 'j', 'p', 'g']) = ['.', 'j', 'p', 'g'] := by
  unfold nameSuffix
  rw [extSplitLen_append_jpg st hst]
  rw [show (st ++ ['.', 'j', 'p', 'g']).length = st.length + 4 from by simp]
  rw [show st.length + 4 - 4 = st.length from by omega]
  exact List.drop_left st ['.', 'j', 'p', 'g']

/-- The stem of a slash-free component is slash free. -/
theorem nameStem_noslash (nm : List Char) (hnm : ∀ x ∈ nm, x ≠ '/') :
    ∀ x ∈ nameStem nm, x ≠ '/' := by
  intro x hx
  unfold nameStem at hx
  exact hnm x (List.take_subset _ _ hx)

/-- C4 helper: the mode conversion of `_ensure_jpeg_and_save` always
yields RGB. -/
theorem convertForJpeg_eq_RGB (mode : String) : convertForJpeg mode = "RGB" := by
  by_cases h1 : mode = "RGB"
  · subst h1
    rfl
  · by_cases h2 : mode = "L"
    · subst h2
      rfl
    · unfold convertForJpeg
      rw [if_pos (by rintro (h | h) <;> [exact h1 h; exact h2 h])]

/-- C4 helper: any saved path with a nonempty stem carries the `.jpg`
extension up to case. -/
theorem ensureJpg_suffix (p : String) (hst : nameStem (basenameL p.data) ≠ []) :
    strLower (pathSuffix (ensureJpgPath p)) = ".jpg" := by
  unfold ensureJpgPath
  by_cases hc : strLower (pathSuffix p) ≠ ".jpg"
  · rw [if_pos hc]
    unfold withSuffix pathSuffix
    dsimp only
    have hstne : nameStem (splitDirName (stripTrailingSlashes p.data)).2 ≠ [] := hst
    have hb : basenameL ((splitDirName (stripTrailingSlashes p.data)).1 ++
        nameStem (splitDirName (stripTrailingSlashes p.data)).2 ++ ['.', 'j', 'p', 'g']) =
        nameStem (splitDirName (stripTrailingSlashes p.data)).2 ++ ['.', 'j', 'p', 'g'] := by
      unfold basenameL
      have hassoc : (splitDirName (stripTrailingSlashes p.data)).1 ++
          nameStem (splitDirName (stripTrailingSlashes p.data)).2 ++ ['.', 'j', 'p', 'g'] =
          ((splitDirName (stripTrailingSlashes p.data)).1 ++
            nameStem (splitDirName (stripTrailingSlashes p.data)).2 ++ ['.', 'j', 'p']) ++ ['g'] := by
        simp
      rw [hassoc, stripTrailingSlashes_last _ 'g' (by decide), ← hassoc]
      rw [show (splitDirName (stripTrailingSlashes p.data)).1 ++
          nameStem (splitDirName (stripTrailingSlashes p.data)).2 ++ ['.', 'j', 'p', 'g'] =
          (splitDirName (stripTrailingSlashes p.data)).1 ++
          (nameStem (splitDirName (stripTrailingSlashes p.data)).2 ++ ['.', 'j', 'p', 'g'])
        from by simp]
      refine splitDirName_append _ _ ?_ (splitDirName_dir_shape _)
      intro x hx
      rcases List.mem_append.mp hx with h | h
      · exact nameStem_noslash _ (splitDirName_name_noslash _) x h
      · intro he
        subst he
        exact absurd h (by decide)
    rw [hb, nameSuffix_append_jpg _ hstne]
    rfl
  · rw [if_neg hc]
    exact not_not.mp hc

/-! ## Claim theorems settled by computation or on the matcher -/

/-- C3: the matcher resolves a reference by exact lowercased basename,
then stem with each fixed extension in order, then substring scan; on the
fig3 example the extension step selects fig3.png before the substring
fallback is reached; and an unmatched caption is skipped while the
remaining captions of the entry still proceed. -/
theorem C3_matcher_precedence :
    (∀ (graphic_ref : String) (idx : List (String × TarMember)),
      findMember graphic_ref idx = matchStep123 graphic_ref idx) ∧
    (matchExact "fig3" (buildImgIndex [memberFig3, memberOther]) = none ∧
     matchExt "fig3" (buildImgIndex [memberFig3, memberOther]) = some memberFig3 ∧
     findMember "fig3" (buildImgIndex [memberFig3, memberOther]) = some memberFig3) ∧
    (∀ (ctx : FigCtx) (fig : Fig) (sw : RunState × Bool) (rest : List Fig),
      findMember fig.graphic_ref ctx.idx = none →
      figStep ctx sw fig = sw ∧
      (fig :: rest).foldl (figStep ctx) sw = rest.foldl (figStep ctx) sw) := by
  refine ⟨findMember_eq_steps, by decide, ?_⟩
  intro ctx fig sw rest hnone
  have hskip := figStep_of_attempt_none ctx fig sw (figAttempt_none_of_noMatch ctx fig hnone)
  refine ⟨hskip, ?_⟩
  rw [List.foldl_cons, hskip]

/-- C4 (amended): every successfully normalized image decodes to three
colour channels, and the saved path carries the `.jpg` extension up to
letter case; the path is rewritten only when its lowercased extension
differs from `.jpg`, so an uppercase `.JPG` extension is kept as is. -/
theorem C4_normalize_rgb_jpg :
    (∀ (mode out_path : String),
      modeChannels (ensure_jpeg_and_save mode out_path).1 = 3) ∧
    (∀ (mode out_path : String), pathStem out_path ≠ "" →
      strLower (pathSuffix (ensure_jpeg_and_save mode out_path).2) = ".jpg") := by
  constructor
  · intro mode out_path
    show modeChannels (convertForJpeg mode) = 3
    rw [convertForJpeg_eq_RGB]
    rfl
  · intro mode out_path hst
    show strLower (pathSuffix (ensureJpgPath out_path)) = ".jpg"
    refine ensureJpg_suffix out_path ?_
    intro hnil
    apply hst
    show pathStem out_path = ""
    unfold pathStem
    rw [hnil]

/-- C9: the subset cap truncates the raw manifest body at the cap before
parsing, counting malformed lines against the cap, a missing cap reads
every line, and a cap of zero is falsy and reads every line as well. -/
theorem C9_subset_cap_semantics :
    (∀ lines : List String, readEntries (some 0) lines = readEntries none lines) ∧
    (∀ lines : List String, readEntries none lines = lines.filterMap readManifestLine) ∧
    (∀ (n : Nat) (lines : List String), n ≠ 0 →
      readEntries (some n) lines = (lines.take n).filterMap readManifestLine) := by
  refine ⟨?_, ?_, ?_⟩
  · intro lines
    exact readEntriesAux_zero lines 0
  · intro lines
    exact readEntriesAux_none lines 0
  · intro n lines hn
    have h := readEntriesAux_cap n hn lines 0
    simpa using h

/-! ## Counterexamples -/

/-- C1 counterexample: with resume disabled, two captions with the same
pair id are both appended in a single run, so pair ids in the output file
are not pairwise distinct regardless of the resume flag. -/
theorem C1_counterexample :
    (build_pubmed_image_caption_dataset_streaming cfgNoResume remoteDup linesOne
        []).outFile.map (fun r => r.pair_id) = ["1001_1", "1001_1"] ∧
    ¬ List.Pairwise (fun a b => a.pair_id ≠ b.pair_id)
      (build_pubmed_image_caption_dataset_streaming cfgNoResume remoteDup linesOne
        []).outFile := by
  constructor
  · decide
  · decide

/-- C2 counterexample: one attempted entry with two written captions
gives a written counter of two, so written plus skipped is not the number
of attempted entries. -/
theorem C2_counterexample :
    (build_pubmed_image_caption_dataset_streaming cfgResume remoteTwoFigs linesOne
        []).nWritten = 2 ∧
    (build_pubmed_image_caption_dataset_streaming cfgResume remoteTwoFigs linesOne
        []).nSkipped = 0 ∧
    (readEntries cfgResume.subset_size (linesOne.drop 1)).length = 1 ∧
    ¬ ((build_pubmed_image_caption_dataset_streaming cfgResume remoteTwoFigs linesOne
          []).nWritten +
        (build_pubmed_image_caption_dataset_streaming cfgResume remoteTwoFigs linesOne
          []).nSkipped =
        (readEntries cfgResume.subset_size (linesOne.drop 1)).length) := by
  refine ⟨by decide, by decide, by decide, by decide⟩

/-- C4 counterexample: an output path with the uppercase extension `.JPG`
is kept unchanged, so the saved extension is `.JPG`, not `.jpg`. -/
theorem C4_counterexample :
    (ensure_jpeg_and_save "RGB" "a.JPG").2 = "a.JPG" ∧
    pathSuffix (ensure_jpeg_and_save "RGB" "a.JPG").2 = ".JPG" ∧
    (".JPG" : String) ≠ ".jpg" := by
  refine ⟨by decide, by decide, by decide⟩

/-- C5 counterexample: with resume disabled a duplicated caption re-saves
the same image path in one run, and even with resume enabled two entries
with the same pmc and figure id but different pmids save to the same path
twice, so image files are overwritten. -/
theorem C5_counterexample :
    (build_pubmed_image_caption_dataset_streaming cfgNoResume remoteDup linesOne
        []).saves = ["PMC1/PMC1_fig-1.jpg", "PMC1/PMC1_fig-1.jpg"] ∧
    (build_pubmed_image_caption_dataset_streaming cfgResume remoteTwoEntries linesTwo
        []).saves = ["PMC1/PMC1_fig-1.jpg", "PMC1/PMC1_fig-1.jpg"] := by
  refine ⟨by decide, by decide⟩

/-! ## Witnesses -/

/-- Witness for C1 on the one-entry fixture. -/
theorem C1_witness :
    (∃ L, (build_pubmed_image_caption_dataset_streaming cfgResume remoteOne linesOne
        []).outFile = [] ++ L ∧
      L.Pairwise (fun a b => a.pair_id ≠ b.pair_id) ∧
      ∀ r ∈ L, r.pair_id ∉ pairsFromFile [] ∧ r.pair_id ≠ "") ∧
    figStep ctxOne (statePaired, false) figOne = (statePaired, false) ∧
    ((figStep ctxOne (state0, false) figOne).1.outFile = state0.outFile ++ [recOne] ∧
      (figStep ctxOne (state0, false) figOne).1.pairs = recOne.pair_id :: state0.pairs) :=
  ⟨C1_dedup_append_unique.1 cfgResume remoteOne linesOne [] rfl,
   C1_dedup_append_unique.2.1 ctxOne figOne (statePaired, false) rfl (by decide),
   C1_dedup_append_unique.2.2 ctxOne figOne (state0, false) recOne (by decide) (by decide)⟩

/-- Witness for C3 on an unmatched reference. -/
theorem C3_witness :
    figStep ctxOne (state0, false) figNope = (state0, false) ∧
    (figNope :: [figOne]).foldl (figStep ctxOne) (state0, false) =
      [figOne].foldl (figStep ctxOne) (state0, false) :=
  C3_matcher_precedence.2.2 ctxOne figNope (state0, false) [figOne] (by decide)

/-- Witness for C4 on a grayscale image and a well-formed output path. -/
theorem C4_witness :
    modeChannels (ensure_jpeg_and_save "L" "PMC1/PMC1_fig-1.jpg").1 = 3 ∧
    strLower (pathSuffix (ensure_jpeg_and_save "L" "PMC1/PMC1_fig-1.jpg").2) = ".jpg" :=
  ⟨C4_normalize_rgb_jpg.1 "L" "PMC1/PMC1_fig-1.jpg",
   C4_normalize_rgb_jpg.2 "L" "PMC1/PMC1_fig-1.jpg" (by decide)⟩

/-- Witness for C5 on the one-entry fixture. -/
theorem C5_witness :
    ((figStep ctxOne (state0, false) figOne).1.saves = state0.saves ∨
      (figStep ctxOne (state0, false) figOne).1.saves = state0.saves ++
        [ensureJpgPath (ctxOne.pmc ++ "/" ++ ctxOne.pmc ++ "_fig-" ++ figOne.fig_id ++ ".jpg")]) ∧
    figStep ctxOne (statePaired, false) figOne = (statePaired, false) :=
  ⟨C5_image_paths_no_resave.1 ctxOne figOne (state0, false),
   C5_image_paths_no_resave.2 ctxOne figOne (statePaired, false) rfl (by decide)⟩

/-- Witness for C6 on concrete remotes: primary-only dependence, fallback
equivalence, and the dual failure skip. -/
theorem C6_witness :
    processEntry cfgResume remoteOne state0 entOne =
      processEntry cfgResume remoteBoth state0 entOne ∧
    (processEntry cfgResume remoteFtpOnly state0 entOne).outFile =
      (processEntry cfgResume (patchPrimary remoteFtpOnly
        (PRIMARY_BASE ++ relWithExt entOne.path cfgResume.file_extension) archOne)
        state0 entOne).outFile ∧
    processEntry cfgResume remoteDead state0 entOne =
      skip1 { state0 with headQueries := state0.headQueries ++ guardLog cfgResume entOne,
                          downloads := state0.downloads ++
                            [PRIMARY_BASE ++ relWithExt entOne.path cfgResume.file_extension,
                             FALLBACK_BASE ++ relWithExt entOne.path cfgResume.file_extension] } :=
  ⟨C6_dual_base_fallback.1 cfgResume remoteOne remoteBoth state0 entOne archOne rfl
      (by decide) (by decide) (by decide),
   (C6_dual_base_fallback.2.1 cfgResume remoteFtpOnly state0 entOne archOne rfl
      (by decide) (by decide)).1,
   C6_dual_base_fallback.2.2 cfgResume remoteDead state0 entOne rfl
      (by decide) (by decide) (by decide)⟩

/-- Witness for C7 on concrete ceilings and sizes. -/
theorem C7_witness :
    (processEntry cfgResume remoteOne state0 entOne).headQueries = state0.headQueries ∧
    processEntry cfgGuard remoteBig state0 entOne =
      skip1 { state0 with headQueries := state0.headQueries ++
        [PRIMARY_BASE ++ relWithExt entOne.path cfgGuard.file_extension] } ∧
    processEntry cfgGuard remoteSmall state0 entOne =
      processEntry { cfgGuard with max_filesize_mb := none } remoteSmall
        { state0 with headQueries := state0.headQueries ++
          [PRIMARY_BASE ++ relWithExt entOne.path cfgGuard.file_extension] } entOne :=
  ⟨C7_size_guard.1 cfgResume remoteOne state0 entOne rfl,
   C7_size_guard.2.1 cfgGuard remoteBig state0 entOne 1 (2 * 1024 * 1024) rfl
      (by decide) (by decide),
   C7_size_guard.2.2 cfgGuard remoteSmall state0 entOne 1 rfl
      (Or.inr ⟨100, by decide, by decide⟩)⟩

/-- Witness for C8 on the one-entry fixture. -/
theorem C8_witness :
    (build_pubmed_image_caption_dataset_streaming cfgResume remoteOne linesOne
        (build_pubmed_image_caption_dataset_streaming cfgResume remoteOne linesOne
          []).outFile).outFile =
      (build_pubmed_image_caption_dataset_streaming cfgResume remoteOne linesOne
        []).outFile ∧
    (build_pubmed_image_caption_dataset_streaming cfgResume remoteOne linesOne
        (build_pubmed_image_caption_dataset_streaming cfgResume remoteOne linesOne
          []).outFile).nWritten = 0 :=
  C8_idempotent_rerun cfgResume remoteOne linesOne [] rfl

/-- Witness for C9 on a manifest body whose first line is malformed and a
cap of two. -/
theorem C9_witness :
    readEntries (some 2) linesCap = (linesCap.take 2).filterMap readManifestLine :=
  C9_subset_cap_semantics.2.2 2 linesCap (by decide)

/-- Witness for C10 on the two-caption archive whose second caption
carries different own ids. -/
theorem C10_witness :
    recTwo ∈ state0.outFile ∨
    (recTwo.pmid = resolveField figOne.figPmid entOne.pmid ∧
     recTwo.pmcid = resolveField figOne.figPmc entOne.pmcid ∧
     ∃ f ∈ figOne :: [figTwoOtherIds],
       recTwo.pair_id = resolveField figOne.figPmid entOne.pmid ++ "_" ++ f.fig_id) :=
  C10_ids_from_first_caption cfgResume entOne archTwo state0 figOne [figTwoOtherIds]
    rfl recTwo (by decide)

end PMC
